import Mathlib

/-!
Verification of the leaderboard ranking and caching engine of the Records
repository, against its natural-language specification.

The development shallowly embeds the relevant Rust code:

* `game_api/src/graphql/utils.rs` — the rank resolver
  (`get_rank_or_full_update` and its inner `get_rank`), over a model of a
  Redis sorted set (a list of member/score entries kept in ascending
  native order).
* `game_api/src/http/overview.rs` — the display-window selection in the
  `overview` handler, with u32 arithmetic modelled as wrapping arithmetic
  modulo 2^32 (the release-build semantics of Rust integer overflow).
* `game_api/src/http/player_finished.rs` — the `finished` operation and
  `insert_record`, modelled as the ordered list of store mutations they
  perform, with i32 checkpoint sums modelled as wrapping arithmetic.
* `records_lib/src/update_mappacks.rs` — the pure scoring pipeline of
  `calc_scores` (player collection, rank vectors with penalty ranks,
  per-player aggregates, overall sort and stable-tie rank assignment),
  and the key/TTL effects of `save`.

`f64` scores are modelled as exact rationals (the pipeline only ever
computes mean-of-integers, so every value is exactly representable),
Rust's stable `sort_by` is modelled as a stable insertion sort, and i32
division (which truncates toward zero) is modelled by `Int.tdiv`.
-/

namespace Records

/-- Error type of the engine, as far as the verified claims need it.
`typeConversion` models a Redis nil answer converted to `i32` by the
typed `zrank` call; `invalidTimes` is `RecordsError::InvalidTimes`;
`mapNotFound` is `RecordsError::MapNotFound`; `leaderboardFault` models
the panic in `get_rank_or_full_update` (utils.rs:201), an unrecoverable
fault distinct from every ordinary error. -/
inductive RecordsError where
  | typeConversion
  | invalidTimes
  | mapNotFound
  | leaderboardFault
deriving DecidableEq, Repr

/-- One entry of a Redis sorted set: member = player id, score = time. -/
structure ZEntry where
  member : Nat
  score : Int
deriving DecidableEq, Repr

/-- A sorted-set cache for one (map, event) scope, as the list of its
entries in ascending native order. -/
abbrev Cache := List ZEntry

/-- Stable insertion of `x` into `l`: `x` is placed before the first
element that is not strictly below it, matching the placement a stable
sort gives an element relative to the already-sorted rest. -/
def insertStable {α : Type} (lt : α → α → Bool) (x : α) : List α → List α
  | [] => [x]
  | y :: ys => if lt y x then y :: insertStable lt x ys else x :: y :: ys

/-- Stable insertion sort; models Rust's stable `sort_by` run with a
comparator whose strict-less test is `lt`. -/
def sortStable {α : Type} (lt : α → α → Bool) (l : List α) : List α :=
  l.foldr (insertStable lt) []

/-- The order in which the scope direction makes the cache be read:
`zrev*` commands read the ascending list backwards. -/
def nativeOrder (cache : Cache) (reversed : Bool) : Cache :=
  if reversed then cache.reverse else cache

/-- First entry of `l` whose score is exactly `t`; models
`zrangebyscore_limit key t t 0 1` on the list already put in native
order (and `zrevrangebyscore_limit` when the native order is reversed). -/
def zfirstWith (t : Int) : Cache → Option ZEntry
  | [] => none
  | e :: es => if e.score == t then some e else zfirstWith t es

/-- Index of the first entry satisfying `p`; models `zrank` (resp.
`zrevrank`) when applied to the list in native order with a member test. -/
def zfindIdx (p : ZEntry → Bool) : Cache → Option Nat
  | [] => none
  | e :: es => if p e then some 0 else (zfindIdx p es).map (· + 1)

/-- Body of the inner `get_rank` of utils.rs:162-187, over a list already
put in native order: query the first member whose score equals `t`, then
ask for that member's rank and return it plus one.  A nil rank answer for
the member fails the typed conversion to `i32`. -/
def rankInList (l : Cache) (t : Int) : Except RecordsError (Option Int) :=
  match zfirstWith t l with
  | none => .ok none
  | some e0 =>
    match zfindIdx (fun e => e.member == e0.member) l with
    | some r => .ok (some ((r : Int) + 1))
    | none => .error .typeConversion

/-- The inner `get_rank` of `get_rank_or_full_update` (utils.rs:162-187):
for a reversed map every query runs in descending order, otherwise in
ascending order. -/
def get_rank (cache : Cache) (t : Int) (reversed : Bool) :
    Except RecordsError (Option Int) :=
  rankInList (nativeOrder cache reversed) t

/-- Best of a list of times: `MIN` for an ascending map, `MAX` for a
reversed one; `none` on an empty list. -/
def bestTime (reversed : Bool) : List Int → Option Int
  | [] => none
  | h :: ts => some (ts.foldl (fun a b => if reversed then max a b else min a b) h)

/-- First-occurrence deduplication of a list of player ids. -/
def dedupFirst (l : List Nat) : List Nat :=
  l.foldl (fun acc x => if acc.contains x then acc else acc ++ [x]) []

/-- Ascending sorted-set order: by score, ties by member id (Redis orders
equal-score members lexicographically; members here are numeric ids). -/
def zentryLt (a b : ZEntry) : Bool :=
  decide (a.score < b.score) || (a.score == b.score && decide (a.member < b.member))

/-- Modelled from the spec: `redis::update_leaderboard` is repository
code that is not under src/ (utils.rs only calls it).  Per section 4.1 of
the spec, the rebuild re-reads, for every player with at least one record
in the scope, their best time (`MIN(time)` if ascending, `MAX(time)` if
descending, grouped by player) and re-inserts each as one cache entry.
The store is the scope's relational record log as (player, time) rows. -/
def update_leaderboard (store : List (Nat × Int)) (reversed : Bool) : Cache :=
  sortStable zentryLt
    ((dedupFirst (store.map Prod.fst)).filterMap (fun p =>
      (bestTime reversed ((store.filter (fun r => r.1 == p)).map Prod.snd)).map
        (fun t => ZEntry.mk p t)))

/-- `get_rank_or_full_update` (utils.rs:152-209): look the time up in the
cache; on a miss, delete the scope key, rebuild the leaderboard from the
relational store, and retry once; a second miss hits the panic, modelled
as the distinguished `leaderboardFault` error.  The deletion plus rebuild
is modelled by querying the freshly rebuilt cache. -/
def get_rank_or_full_update (cache : Cache) (store : List (Nat × Int))
    (t : Int) (reversed : Bool) : Except RecordsError Int :=
  match get_rank cache t reversed with
  | .error e => .error e
  | .ok (some r) => .ok r
  | .ok none =>
    match get_rank (update_leaderboard store reversed) t reversed with
    | .error e => .error e
    | .ok (some r) => .ok r
    | .ok none => .error .leaderboardFault

/-! ### Mappack scoring pipeline (`records_lib/src/update_mappacks.rs`, `calc_scores`)

The SQL/Redis fetching part of `calc_scores` (lines 327-371) produces, for
each map of the mappack in order, the list of that map's current-best
records (one row per player, ordered by ascending time) together with the
rank resolved for each record.  The pure pipeline below takes that data as
input: a `RankedRecord` is one resolved row, and the mappack is a list of
per-map record lists. -/

/-- One rank entry of a player's per-map rank vector (`Rank` in
update_mappacks.rs): the resolved (or penalty) rank and the 0-based index
of the map inside the mappack. -/
structure Rank where
  rank : Int
  map_idx : Nat
deriving DecidableEq, Repr

/-- Per-player mappack score row (`PlayerScore` in update_mappacks.rs).
The display-only `login`/`name` fields are omitted; `score` is the f64
rank average, modelled as an exact rational. -/
structure PlayerScore where
  player_id : Nat
  ranks : List Rank
  score : ℚ
  maps_finished : Nat
  rank : Nat
  worst : Rank
deriving DecidableEq, Repr

/-- One resolved record row of one map: the player and the rank that
`get_rank_or_full_update` resolved for the record's time. -/
structure RankedRecord where
  player_id : Nat
  rank : Int
deriving DecidableEq, Repr

/-- The fresh `PlayerScore` pushed when a player is first encountered
(update_mappacks.rs:345-354): empty ranks, zero score, zero finished
count, zero overall rank, `Default::default()` worst. -/
def initPlayer (pid : Nat) : PlayerScore :=
  { player_id := pid, ranks := [], score := 0, maps_finished := 0,
    rank := 0, worst := { rank := 0, map_idx := 0 } }

/-- One step of the player-collection loop (update_mappacks.rs:344-355):
push a fresh entry unless a score row for this player already exists. -/
def collectStep (acc : List PlayerScore) (r : RankedRecord) : List PlayerScore :=
  if acc.any (fun p => p.player_id == r.player_id) then acc
  else acc ++ [initPlayer r.player_id]

/-- Player collection over every map's records in order, mirroring the
nested loops of update_mappacks.rs:327-368. -/
def collectPlayers (mrs : List (List RankedRecord)) : List PlayerScore :=
  mrs.foldl (fun acc recs => recs.foldl collectStep acc) []

/-- `records.iter().map(|p| p.rank).max().unwrap_or(0)`
(update_mappacks.rs:378): the map's last (worst) resolved rank, 0 when the
map has no records. -/
def lastRankOf (recs : List RankedRecord) : Int :=
  match recs.map RankedRecord.rank with
  | [] => 0
  | h :: ts => ts.foldl max h

/-- Rewrite the first element satisfying `p` with `f`; models
`iter_mut().find(...)` followed by a mutation. -/
def updateFirst {α : Type} (p : α → Bool) (f : α → α) : List α → List α
  | [] => []
  | x :: xs => if p x then f x :: xs else x :: updateFirst p f xs

/-- Record loop body (update_mappacks.rs:380-393): the record's player
gets the resolved rank appended for this map and their finished count
incremented. -/
def pushRecord (idx : Nat) (r : RankedRecord) (scores : List PlayerScore) :
    List PlayerScore :=
  updateFirst (fun p => p.player_id == r.player_id)
    (fun p =>
      { p with
        ranks := p.ranks ++ [{ rank := r.rank, map_idx := idx }],
        maps_finished := p.maps_finished + 1 }) scores

/-- Penalty loop (update_mappacks.rs:395-403): every player whose rank
vector is still short of `map_number = idx + 1` entries gets the synthetic
rank `last_rank + 1` for this map; the finished count is not incremented. -/
def applyPenalties (idx : Nat) (lr : Int) (scores : List PlayerScore) :
    List PlayerScore :=
  scores.map (fun pl =>
    if pl.ranks.length < idx + 1 then
      { pl with ranks := pl.ranks ++ [{ rank := lr + 1, map_idx := idx }] }
    else pl)

/-- Processing of one map inside the rank-vector loop
(update_mappacks.rs:375-406): real ranks first, then penalties. -/
def processMap (idx : Nat) (recs : List RankedRecord)
    (scores : List PlayerScore) : List PlayerScore :=
  applyPenalties idx (lastRankOf recs) (recs.foldl (fun s r => pushRecord idx r s) scores)

/-- The rank-vector loop over all maps, also collecting each map's
`last_rank` value exactly as the loop leaves it in `maps`. -/
def buildRanksAux : Nat → List (List RankedRecord) → List PlayerScore →
    List PlayerScore × List Int
  | _, [], scores => (scores, [])
  | idx, recs :: rest, scores =>
    let out := buildRanksAux (idx + 1) rest (processMap idx recs scores)
    (out.1, lastRankOf recs :: out.2)

/-- Stages one and two of `calc_scores`: collect the players, then build
every player's rank vector with penalties; also returns the per-map
last-rank list. -/
def buildRanks (mrs : List (List RankedRecord)) : List PlayerScore × List Int :=
  buildRanksAux 0 mrs (collectPlayers mrs)

/-- The intra-vector comparator of update_mappacks.rs:409-414, with i32
division (truncation toward zero) modelled by `Int.tdiv`:
`(a.rank / last_rank(a).max(1) - b.rank / last_rank(b).max(1))
 + (a.rank - b.rank) / 1000`, compared against 0. -/
def rankLt (lastRanks : List Int) (a b : Rank) : Bool :=
  decide ((Int.tdiv a.rank (max (lastRanks.getD a.map_idx 0) 1)
      - Int.tdiv b.rank (max (lastRanks.getD b.map_idx 0) 1))
      + Int.tdiv (a.rank - b.rank) 1000 < 0)

/-- Per-player aggregation (update_mappacks.rs:408-428): sort the rank
vector by `rankLt`, take the worst entry by `reduce`, and set the score to
the mean of all ranks.  On the empty vector (impossible for a nonempty
mappack) the code would panic at `unwrap`; the model keeps the defaults. -/
def aggregatePlayer (lastRanks : List Int) (pl : PlayerScore) : PlayerScore :=
  let sorted := sortStable (rankLt lastRanks) pl.ranks
  match sorted with
  | [] => { pl with ranks := sorted }
  | h :: ts =>
    { pl with
      ranks := sorted,
      worst := ts.foldl (fun a b => if a.rank > b.rank then a else b) h,
      score := ((sorted.map Rank.rank).foldl (· + ·) 0 : Int) / (sorted.length : ℚ) }

/-- The overall comparator of update_mappacks.rs:430-436: finished count
descending, then score ascending. -/
def playerLt (a b : PlayerScore) : Bool :=
  if a.maps_finished ≠ b.maps_finished then decide (b.maps_finished < a.maps_finished)
  else decide (a.score < b.score)

/-- The overall rank assignment loop of update_mappacks.rs:438-452, with
its running (old_score, old_finishes, old_rank) state and the 0-based
enumeration index. -/
def assignRanksAux (os : ℚ) (of : Nat) (orank : Nat) (idx : Nat) :
    List PlayerScore → List PlayerScore
  | [] => []
  | p :: ps =>
    let r := if os = p.score ∧ of = p.maps_finished then orank else idx + 1
    { p with rank := r } :: assignRanksAux p.score p.maps_finished r (idx + 1) ps

/-- Overall rank assignment started from the zero sentinel state. -/
def assignRanks (l : List PlayerScore) : List PlayerScore :=
  assignRanksAux 0 0 0 0 l

/-- The pure part of `calc_scores` (update_mappacks.rs:327-454), from the
per-map resolved record lists to the final scored and ranked player list. -/
def calc_scores (mrs : List (List RankedRecord)) : List PlayerScore :=
  let built := buildRanks mrs
  assignRanks (sortStable playerLt (built.1.map (aggregatePlayer built.2)))

/-- The single rank entry map `idx` contributes to a player's rank
vector when the player has a record there: the record's resolved rank. -/
def foundEntry (recs : List RankedRecord) (pid : Nat) (idx : Nat) : List Rank :=
  match recs.find? (fun r => r.player_id == pid) with
  | some r => [{ rank := r.rank, map_idx := idx }]
  | none => []

/-- The rank entry map `idx` contributes to a player's rank vector: the
resolved rank when the player has a record there, the penalty rank
`last_rank + 1` otherwise. -/
def expectedEntryAux (recs : List RankedRecord) (pid : Nat) (idx : Nat) : Rank :=
  match recs.find? (fun r => r.player_id == pid) with
  | some r => { rank := r.rank, map_idx := idx }
  | none => { rank := lastRankOf recs + 1, map_idx := idx }

/-- The full rank vector the pipeline owes a player for the maps from
index `idx` on. -/
def expectedRanks (pid : Nat) : Nat → List (List RankedRecord) → List Rank
  | _, [] => []
  | idx, recs :: rest => expectedEntryAux recs pid idx :: expectedRanks pid (idx + 1) rest

/-! ### Display window selection (`game_api/src/http/overview.rs`)

The `overview` handler computes, from the player's 0-based cache rank (or
its absence) and the scope's total entry count, which rank ranges it
fetches into the response.  All arithmetic is `u32`; subtraction that
would underflow wraps modulo 2^32 (Rust release-build semantics; a debug
build would abort at the same spot). -/

/-- `TOTAL_ROWS` (overview.rs:169). -/
def TOTAL_ROWS : Nat := 15

/-- `NO_RECORD_ROWS = TOTAL_ROWS - 1` (overview.rs:170). -/
def NO_RECORD_ROWS : Nat := TOTAL_ROWS - 1

/-- Wrapping u32 subtraction. -/
def u32sub (a b : Nat) : Nat := (a % 2 ^ 32 + 2 ^ 32 - b % 2 ^ 32) % 2 ^ 32

/-- Wrapping u32 addition. -/
def u32add (a b : Nat) : Nat := (a + b) % 2 ^ 32

/-- The list of (start, end) rank ranges whose `get_range` results the
`overview` handler extends into its response (overview.rs:180-220).  Note
two quirks of the source, both modelled as written: the overflow-shift
expression `(start - end - count, count)` at line 196 parses as
`((start - end) - count, count)` and wraps, and the top-range call at
line 211 is evaluated but its result is dropped (never pushed into
`ranked_records`), so only the last-3 range reaches the response there. -/
def overviewRanges (player_rank : Option Nat) (count : Nat) : List (Nat × Nat) :=
  match player_rank with
  | some pr =>
    if pr < TOTAL_ROWS then [(0, TOTAL_ROWS)]
    else
      let row_minus_top3 := TOTAL_ROWS - 3
      let s := u32sub pr (row_minus_top3 / 2)
      let e := u32add pr (row_minus_top3 / 2)
      let range := if e ≥ count then (u32sub (u32sub s e) count, count) else (s, e)
      [(0, 3), range]
  | none =>
    if count > NO_RECORD_ROWS then [(count - 3, count)]
    else [(0, NO_RECORD_ROWS)]

/-! ### Finish submission (`game_api/src/http/player_finished.rs`)

`finished` and `insert_record` are modelled by the ordered list of store
mutations they perform, together with their result.  The read-only steps
(player/map lookup, the old-record SELECT) do not mutate anything and are
not traced; the final `get_rank_or_full_update` call happens after all
inserts and is covered by the resolver model above. -/

/-- The fields of `models::Map` that `finished` uses. -/
structure MapModel where
  id : Nat
  cps_number : Option Nat
  reversed : Option Bool
deriving DecidableEq, Repr

/-- The finish request body (`HasFinishedBody` / `InsertRecordParams`). -/
structure FinishBody where
  time : Int
  respawn_count : Int
  cps : List Int
deriving DecidableEq, Repr

/-- One store mutation performed by the finish path. -/
inductive Mutation where
  | cacheZadd (map_id player_id : Nat) (time : Int)
  | cacheRebuild (map_id : Nat)
  | sqlInsertRecord (map_id player_id : Nat) (time : Int) (respawn_count : Int)
  | sqlInsertCps (map_id : Nat) (cps : List Int)
deriving DecidableEq, Repr

/-- Wrap an integer into the i32 range. -/
def wrap32 (n : Int) : Int := (n + 2 ^ 31) % 2 ^ 32 - 2 ^ 31

/-- `params.cps.iter().sum::<i32>()`: i32 summation, wrapping at every
step (release-build semantics). -/
def i32sum (cps : List Int) : Int := cps.foldl (fun a b => wrap32 (a + b)) 0

/-- The validation test of finished (player_finished.rs:150-152):
`matches!(cps_number, Some(num) if num + 1 != cps.len() as u32)
 || cps.iter().sum::<i32>() != time`, with the u32 arithmetic wrapping. -/
def invalidTimesCheck (map : MapModel) (body : FinishBody) : Bool :=
  (match map.cps_number with
   | some num => decide ((num + 1) % 2 ^ 32 ≠ body.cps.length % 2 ^ 32)
   | none => false)
  || decide (i32sum body.cps ≠ body.time)

/-- `insert_record` (player_finished.rs:97-114): ZADD the submitted time
for the player into the scope's sorted set (on a Redis error, run a full
leaderboard rebuild instead), then insert the record row and its
checkpoint times into the relational store. -/
def insert_record (map : MapModel) (player_id : Nat) (body : FinishBody)
    (zadd_ok : Bool) : List Mutation :=
  (if zadd_ok then [Mutation.cacheZadd map.id player_id body.time]
   else [Mutation.cacheRebuild map.id])
  ++ [Mutation.sqlInsertRecord map.id player_id body.time body.respawn_count,
      Mutation.sqlInsertCps map.id body.cps]

/-- The mutating behaviour of `finished` (player_finished.rs:121-228):
validate the checkpoint data, then insert the record, then (for a
benchmark map uid) insert a second record on the original map when its
checkpoint count and direction agree.  `benchmark` is `some` exactly when
stripping the benchmark suffix changes the uid, carrying the original
map. -/
def finished (map : MapModel) (player_id : Nat) (body : FinishBody)
    (zadd_ok : Bool) (benchmark : Option MapModel) :
    List Mutation × Except RecordsError Unit :=
  if invalidTimesCheck map body then ([], .error .invalidTimes)
  else
    let t1 := insert_record map player_id body zadd_ok
    match benchmark with
    | none => (t1, .ok ())
    | some bmap =>
      if bmap.cps_number = map.cps_number
          ∧ bmap.reversed.getD false = map.reversed.getD false then
        (t1 ++ insert_record bmap player_id body zadd_ok, .ok ())
      else (t1, .error .mapNotFound)

/-- Sorted insertion of an entry into the ascending sorted set. -/
def zinsert (x : ZEntry) : Cache → Cache
  | [] => [x]
  | y :: ys => if zentryLt y x then y :: zinsert x ys else x :: y :: ys

/-- ZADD semantics on the cache model: replace the member's entry (if
any) and place the new score at its sorted position. -/
def zadd (cache : Cache) (m : Nat) (s : Int) : Cache :=
  zinsert { member := m, score := s } (cache.filter (fun e => !(e.member == m)))

/-- The member's current score in the cache. -/
def zscore (cache : Cache) (m : Nat) : Option Int :=
  (cache.find? (fun e => e.member == m)).map ZEntry.score

/-! ### Mappack snapshot persistence (`update_mappacks.rs`, `save`)

The TTL claims are about which snapshot keys exist and whether they carry
an expiry after `save` runs, so the Redis state is modelled per key as
absent/present-with-optional-TTL; values are not tracked.  `SET` (with or
without `EX`) creates or overwrites the key, setting exactly the given
expiry; `ZADD` creates a missing key without expiry and never changes an
existing key's expiry; `EXPIRE` sets the expiry of an existing key and is
a no-op on a missing one; `PERSIST` removes the expiry of an existing
key. -/

/-- The Redis keys written for one mappack id (redis_key.rs): the map-uid
set, the leaderboard zset, map count, per-map last rank, per-player rank
average / finished count / worst rank / rank-vector zset, and the
last-computed timestamp. -/
inductive RKey where
  | mappack
  | lb
  | nbMap
  | mapLastRank (map_id : String)
  | playerRankAvg (player_id : Nat)
  | playerMapFinished (player_id : Nat)
  | playerWorstRank (player_id : Nat)
  | playerRanks (player_id : Nat)
  | timeKey
deriving DecidableEq, Repr

/-- Whether a key exists, and its TTL when it does (`none` = no expiry). -/
inductive KeyState where
  | absent
  | present (ttl : Option Nat)
deriving DecidableEq, Repr

/-- The key space of one mappack in the Redis store. -/
def RStore : Type := RKey → KeyState

/-- SET / `set_options`: with `some` TTL this is SET with EX, without it
plain SET; both overwrite the key and leave exactly the given expiry. -/
def rset (st : RStore) (k : RKey) (ttl : Option Nat) : RStore :=
  fun q => if q = k then KeyState.present ttl else st q

/-- ZADD / SADD effect on the key: create without expiry, or keep the
existing expiry. -/
def rzadd (st : RStore) (k : RKey) : RStore :=
  fun q => if q = k then
    (match st k with
     | KeyState.absent => KeyState.present none
     | KeyState.present t => KeyState.present t)
  else st q

/-- EXPIRE: set the expiry of an existing key; no-op on a missing key. -/
def rexpire (st : RStore) (k : RKey) (ttl : Nat) : RStore :=
  fun q => if q = k then
    (match st k with
     | KeyState.absent => KeyState.absent
     | KeyState.present _ => KeyState.present (some ttl))
  else st q

/-- PERSIST: remove the expiry of an existing key; no-op on a missing
key. -/
def rpersist (st : RStore) (k : RKey) : RStore :=
  fun q => if q = k then
    (match st k with
     | KeyState.absent => KeyState.absent
     | KeyState.present _ => KeyState.present none)
  else st q

/-- The fields of `MappackMap` that `save` uses (name, records and the
stored value of last_rank do not influence key/TTL state). -/
structure MappackMapM where
  map_id : String
  last_rank : Int
deriving DecidableEq, Repr

/-- `MappackScores` as consumed by `save`. -/
structure MappackScoresM where
  maps : List MappackMapM
  scores : List PlayerScore
deriving DecidableEq, Repr

/-- Per-map body of the first loop of `save` (update_mappacks.rs:184-200):
SET the last rank with the shared options, and PERSIST it again in the
no-TTL case. -/
def saveMapStep (ttl : Option Nat) (st : RStore) (m : MappackMapM) : RStore :=
  let st := rset st (RKey.mapLastRank m.map_id) ttl
  match ttl with
  | none => rpersist st (RKey.mapLastRank m.map_id)
  | some _ => st

/-- The ZADD loop over a player's rank vector
(update_mappacks.rs:258-272); only the target key matters for TTL state,
one ZADD per rank entry. -/
def zaddRanks (pid : Nat) (ranks : List Rank) (st : RStore) : RStore :=
  ranks.foldl (fun st _ => rzadd st (RKey.playerRanks pid)) st

/-- Per-player body of the second loop of `save`
(update_mappacks.rs:202-273): ZADD into the leaderboard, SET the rank
average, finished count and worst rank with the shared options, then
EXPIRE the player's ranks key (TTL case) or PERSIST the four player keys
(no-TTL case), and finally ZADD one ranks entry per rank. -/
def savePlayerStep (ttl : Option Nat) (st : RStore) (p : PlayerScore) : RStore :=
  let st := rzadd st RKey.lb
  let st := rset st (RKey.playerRankAvg p.player_id) ttl
  let st := rset st (RKey.playerMapFinished p.player_id) ttl
  let st := rset st (RKey.playerWorstRank p.player_id) ttl
  let st := match ttl with
    | some ex => rexpire st (RKey.playerRanks p.player_id) ex
    | none =>
      rpersist (rpersist (rpersist (rpersist st (RKey.playerRanks p.player_id))
        (RKey.playerRankAvg p.player_id)) (RKey.playerMapFinished p.player_id))
        (RKey.playerWorstRank p.player_id)
  zaddRanks p.player_id p.ranks st

/-- Opening of `save` (update_mappacks.rs:156-171): refresh the
expiration of the map-uid set and leaderboard keys, or persist both. -/
def saveStage1 (ttl : Option Nat) (st : RStore) : RStore :=
  match ttl with
  | some ex => rexpire (rexpire st RKey.mappack ex) RKey.lb ex
  | none => rpersist (rpersist st RKey.mappack) RKey.lb

/-- Map-count write of `save` (update_mappacks.rs:175-182). -/
def saveNbMap (ttl : Option Nat) (st : RStore) : RStore :=
  let st := rset st RKey.nbMap ttl
  match ttl with
  | none => rpersist st RKey.nbMap
  | some _ => st

/-- The per-map loop of `save` (update_mappacks.rs:184-200). -/
def saveMaps (ttl : Option Nat) (maps : List MappackMapM) (st : RStore) : RStore :=
  maps.foldl (saveMapStep ttl) st

/-- The per-player loop of `save` (update_mappacks.rs:202-273). -/
def savePlayers (ttl : Option Nat) (scores : List PlayerScore) (st : RStore) : RStore :=
  scores.foldl (savePlayerStep ttl) st

/-- Timestamp write of `save` (update_mappacks.rs:275-284): plain SET
(which clears any TTL), then EXPIRE or PERSIST. -/
def saveTime (ttl : Option Nat) (st : RStore) : RStore :=
  let st := rset st RKey.timeKey none
  match ttl with
  | some ex => rexpire st RKey.timeKey ex
  | none => rpersist st RKey.timeKey

/-- `save` (update_mappacks.rs:145-290), as its effect on the mappack's
key/TTL state, in source order: refresh or persist the map-uid set and
leaderboard keys, SET the map count, the per-map last ranks, the
per-player keys, and finally SET the timestamp and EXPIRE or PERSIST it. -/
def saveStore (ttl : Option Nat) (sc : MappackScoresM) (st : RStore) : RStore :=
  saveTime ttl (savePlayers ttl sc.scores (saveMaps ttl sc.maps
    (saveNbMap ttl (saveStage1 ttl st))))

/-- The TTL decision of `update_mappack` (update_mappacks.rs:118-122):
the configured TTL unless the id is in the no-TTL registry set. -/
def mappackTtlFor (no_ttl : List String) (id : String) (env_ttl : Nat) : Option Nat :=
  if no_ttl.all (fun x => x != id) then some env_ttl else none

/-! ### Concrete instances used by witnesses and counterexamples -/

/-- The two-map scenario of the spec's mappack test: player 1 (A)
finishes map 0 at rank 1 and map 1 at rank 2, player 2 (B) finishes only
map 0 at rank 3, and player 3 (C) finishes neither map and therefore
occurs in no record list. -/
def mappackScenario : List (List RankedRecord) := [[⟨1, 1⟩, ⟨2, 3⟩], [⟨1, 2⟩]]

/-- An all-absent mappack key space (a mappack computed for the first
time). -/
def emptyRStore : RStore := fun _ => KeyState.absent

/-- A key space in which every key pre-exists with a 5-second TTL (a
mappack recomputed while its previous snapshot is still alive). -/
def liveRStore : RStore := fun _ => KeyState.present (some 5)

/-- Three aggregated players for the overall-ranking witness: players 2
and 3 tie exactly (same finished count, same score), player 1 finished
fewer maps. -/
def overallWitnessPlayers : List PlayerScore :=
  [{ player_id := 1, ranks := [], score := 5, maps_finished := 1, rank := 0, worst := ⟨0, 0⟩ },
   { player_id := 2, ranks := [], score := 1, maps_finished := 2, rank := 0, worst := ⟨0, 0⟩ },
   { player_id := 3, ranks := [], score := 1, maps_finished := 2, rank := 0, worst := ⟨0, 0⟩ }]

/-- Player B's row as it stands after the rank-vector stage of the
2-map scenario: real rank 3 on map 0, penalty rank 3 on map 1. -/
def penaltyWitnessPlayer : PlayerScore :=
  { player_id := 2, ranks := [⟨3, 0⟩, ⟨3, 1⟩], score := 0,
    maps_finished := 1, rank := 0, worst := ⟨0, 0⟩ }

/-- A one-map, one-player snapshot to persist. -/
def mappackSnapshot1 : MappackScoresM :=
  { maps := [{ map_id := "m1", last_rank := 3 }],
    scores := [{ player_id := 9, ranks := [⟨1, 0⟩], score := 1,
                 maps_finished := 1, rank := 1, worst := ⟨1, 0⟩ }] }

/-! ## Theorems -/

/-! ### Rank resolution (claims C1, C2) -/

theorem zfirstWith_eq_some {t : Int} :
    ∀ {l : Cache} {e : ZEntry}, zfirstWith t l = some e → e ∈ l ∧ e.score = t := by
  intro l
  induction l with
  | nil => intro e h; simp [zfirstWith] at h
  | cons x xs ih =>
    intro e h
    by_cases hx : (x.score == t) = true
    · have hxe : x = e := by simpa [zfirstWith, hx] using h
      subst hxe
      exact ⟨List.mem_cons_self _ _, by simpa using hx⟩
    · have h' : zfirstWith t xs = some e := by
        simpa [zfirstWith, hx] using h
      obtain ⟨hm, hs⟩ := ih h'
      exact ⟨List.mem_cons_of_mem _ hm, hs⟩

theorem zfirstWith_eq_none {t : Int} {l : Cache}
    (h : ∀ e ∈ l, e.score ≠ t) : zfirstWith t l = none := by
  induction l with
  | nil => rfl
  | cons x xs ih =>
    have hx : (x.score == t) = false := by
      simpa using h x (List.mem_cons_self _ _)
    simp only [zfirstWith, hx, Bool.false_eq_true, if_false]
    exact ih fun e he => h e (List.mem_cons_of_mem _ he)

theorem zfindIdx_of_exists (p : ZEntry → Bool) :
    ∀ l : Cache, (∃ e ∈ l, p e = true) → zfindIdx p l = some (l.findIdx p) := by
  intro l
  induction l with
  | nil => rintro ⟨e, he, -⟩; cases he
  | cons x xs ih =>
    rintro ⟨e, he, hp⟩
    by_cases hx : p x = true
    · simp [zfindIdx, hx, List.findIdx_cons]
    · rcases List.mem_cons.1 he with rfl | he'
      · exact absurd hp hx
      · have := ih ⟨e, he', hp⟩
        simp [zfindIdx, hx, List.findIdx_cons, this]

theorem zfirstWith_isSome_of_find {t : Int} :
    ∀ {l : Cache} {idx : Nat}, zfindIdx (fun e => e.score == t) l = some idx →
      ∃ e0, zfirstWith t l = some e0 := by
  intro l
  induction l with
  | nil => intro idx h; simp [zfindIdx] at h
  | cons x xs ih =>
    intro idx h
    by_cases hx : (x.score == t) = true
    · exact ⟨x, by simp [zfirstWith, hx]⟩
    · have hx' : (x.score == t) = false := by simpa using hx
      have h' : (zfindIdx (fun e => e.score == t) xs).map (· + 1) = some idx := by
        simpa [zfindIdx, hx'] using h
      obtain ⟨j, hj, -⟩ := Option.map_eq_some'.1 h'
      obtain ⟨e0, he0⟩ := ih hj
      exact ⟨e0, by simp [zfirstWith, hx', he0]⟩

/-- In a cache with distinct members, the rank query for the member
returned by the first-with-score query lands on the index of the first
entry with that score. -/
theorem zfindIdx_member_of_score {t : Int} :
    ∀ {l : Cache} {e0 : ZEntry} {idx : Nat}, (l.map ZEntry.member).Nodup →
      zfirstWith t l = some e0 → zfindIdx (fun e => e.score == t) l = some idx →
        zfindIdx (fun e => e.member == e0.member) l = some idx := by
  intro l
  induction l with
  | nil => intro e0 idx _ h; simp [zfirstWith] at h
  | cons x xs ih =>
    intro e0 idx hnd hfirst hfind
    rw [List.map_cons, List.nodup_cons] at hnd
    obtain ⟨hxmem, hnd'⟩ := hnd
    by_cases hx : (x.score == t) = true
    · have hxe : x = e0 := by simpa [zfirstWith, hx] using hfirst
      have h0 : (0 : Nat) = idx := by simpa [zfindIdx, hx] using hfind
      subst hxe h0
      simp [zfindIdx]
    · have hx' : (x.score == t) = false := by simpa using hx
      have hfirst' : zfirstWith t xs = some e0 := by
        simpa [zfirstWith, hx'] using hfirst
      have h' : (zfindIdx (fun e => e.score == t) xs).map (· + 1) = some idx := by
        simpa [zfindIdx, hx'] using hfind
      obtain ⟨j, hj, hji⟩ := Option.map_eq_some'.1 h'
      have hrec := ih hnd' hfirst' hj
      have he0mem : e0 ∈ xs := (zfirstWith_eq_some hfirst').1
      have hne : (x.member == e0.member) = false := by
        have : x.member ≠ e0.member := fun hc =>
          hxmem (hc ▸ List.mem_map_of_mem ZEntry.member he0mem)
        simpa using this
      simp [zfindIdx, hne, hrec, hji]

/-- Core of claim C1, over a cache list already in native order: when the
member ids are distinct and some entry has score `t`, the inner rank
lookup succeeds and returns one plus the index of the first entry whose
score is `t`. -/
theorem rankInList_first_match (l : Cache) (t : Int)
    (hnd : (l.map ZEntry.member).Nodup) (idx : Nat)
    (hidx : zfindIdx (fun e => e.score == t) l = some idx) :
    rankInList l t = Except.ok (some ((idx : Int) + 1)) := by
  obtain ⟨e0, he0⟩ := zfirstWith_isSome_of_find hidx
  have hmem := zfindIdx_member_of_score hnd he0 hidx
  unfold rankInList
  rw [he0]
  dsimp only
  rw [hmem]

/-- Claim C1: for every scope and time `t`, when the scope's rank cache
contains a member whose score equals `t`, the rank resolver's cache
lookup returns the 1-based rank (cache rank + 1) of the first such member
in the cache's native order — descending for reversed maps, ascending
otherwise.  Since the result is a function of the time alone, any two
players with identical best times in the scope resolve to the same rank
value. -/
theorem rank_resolution_first_of_score (cache : Cache) (t : Int) (reversed : Bool)
    (hnd : (cache.map ZEntry.member).Nodup)
    (hex : ∃ e ∈ cache, e.score = t) :
    get_rank cache t reversed
      = Except.ok (some
          (((nativeOrder cache reversed).findIdx (fun e => e.score == t) : Int) + 1)) := by
  have hnd' : ((nativeOrder cache reversed).map ZEntry.member).Nodup := by
    unfold nativeOrder
    cases reversed
    · simpa using hnd
    · simpa [List.map_reverse] using List.nodup_reverse.mpr hnd
  have hex' : ∃ e ∈ nativeOrder cache reversed, (fun e => e.score == t) e = true := by
    obtain ⟨e, he, hs⟩ := hex
    refine ⟨e, ?_, by simpa using hs⟩
    unfold nativeOrder
    cases reversed <;> simpa using he
  have hidx := zfindIdx_of_exists _ _ hex'
  exact rankInList_first_match _ _ hnd' _ hidx

/-- Witness for claim C1: two players share the best time 10; the
resolver answers rank 1 for that time, the rank of the first of them. -/
theorem rank_resolution_first_of_score_witness :
    ((([⟨5, 10⟩, ⟨6, 10⟩, ⟨7, 20⟩] : Cache).map ZEntry.member).Nodup
        ∧ ∃ e ∈ ([⟨5, 10⟩, ⟨6, 10⟩, ⟨7, 20⟩] : Cache), e.score = 10)
      ∧ get_rank [⟨5, 10⟩, ⟨6, 10⟩, ⟨7, 20⟩] 10 false = Except.ok (some 1) :=
  ⟨⟨by decide, by decide⟩, by
    have h := rank_resolution_first_of_score [⟨5, 10⟩, ⟨6, 10⟩, ⟨7, 20⟩] 10 false
      (by decide) (by decide)
    simpa using h⟩

theorem get_rank_of_miss (cache : Cache) (t : Int) (reversed : Bool)
    (h : ∀ e ∈ cache, e.score ≠ t) : get_rank cache t reversed = Except.ok none := by
  have h' : ∀ e ∈ nativeOrder cache reversed, e.score ≠ t := by
    intro e he
    refine h e ?_
    unfold nativeOrder at he
    cases reversed <;> simpa using he
  unfold get_rank rankInList
  rw [zfirstWith_eq_none h']

/-- Claim C2: when no cache member's score equals `t`, the resolver
deletes the scope key, rebuilds the leaderboard from the relational
store, and retries exactly once: its result is determined by that single
lookup into the rebuilt cache.  If `t` is still absent after the rebuild
the resolver fails with the fatal fault modelling the panic, which is a
distinct error never equal to a successful answer and distinct from the
ordinary recoverable errors. -/
theorem resolver_rebuild_retry (cache : Cache) (store : List (Nat × Int))
    (t : Int) (reversed : Bool)
    (hmiss : ∀ e ∈ cache, e.score ≠ t) :
    (get_rank_or_full_update cache store t reversed
        = match get_rank (update_leaderboard store reversed) t reversed with
          | .error e => .error e
          | .ok (some r) => .ok r
          | .ok none => .error .leaderboardFault)
      ∧ ((∀ e ∈ update_leaderboard store reversed, e.score ≠ t) →
          get_rank_or_full_update cache store t reversed
            = Except.error RecordsError.leaderboardFault)
      ∧ (∀ r : Int,
          (Except.error RecordsError.leaderboardFault : Except RecordsError Int)
            ≠ Except.ok r)
      ∧ RecordsError.leaderboardFault ≠ RecordsError.typeConversion := by
  refine ⟨?_, ?_, fun r => by simp, by simp⟩
  · unfold get_rank_or_full_update
    rw [get_rank_of_miss cache t reversed hmiss]
  · intro h2
    unfold get_rank_or_full_update
    rw [get_rank_of_miss cache t reversed hmiss,
      get_rank_of_miss _ t reversed h2]

/-- Witness for claim C2: a stale cache without the time 5 is rebuilt
from a store whose only best time is 5, and the retry resolves rank 1. -/
theorem resolver_rebuild_retry_witness :
    (∀ e ∈ ([⟨1, 3⟩] : Cache), e.score ≠ 5)
      ∧ get_rank_or_full_update [⟨1, 3⟩] [(2, 5)] 5 false = Except.ok 1 :=
  ⟨by decide, by
    have h := (resolver_rebuild_retry [⟨1, 3⟩] [(2, 5)] 5 false (by decide)).1
    rw [h]; rfl⟩

/-! ### Display window selection (claims C6, C7) -/

/-- Claim C6 is refuted by the code: for a player at 0-based rank 95 of
100 entries the centered window would overflow by one and should come
back as (88, 100); the handler instead computes
`(start - end) - count` in wrapping u32 arithmetic, yielding a window
starting at 4294967184, and the shifted window (88, 100) is not among
the returned ranges. -/
theorem overview_window_overflow_refutes :
    overviewRanges (some 95) 100 = [(0, 3), (4294967184, 100)]
      ∧ (88, 100) ∉ overviewRanges (some 95) 100 := by
  constructor
  · rfl
  · decide

/-- Claim C7 is refuted by the code: for a player with no record and 20
entries the response should contain the ranges (0, 11) and (17, 20), but
the handler drops the result of the top-range fetch, so only (17, 20) is
returned. -/
theorem overview_no_record_refutes :
    overviewRanges none 20 = [(17, 20)]
      ∧ (0, 11) ∉ overviewRanges none 20 := by
  constructor
  · rfl
  · decide

/-! ### Mappack score scenario (claim C5) -/

theorem buildRanks_scenario_eval :
    buildRanks mappackScenario =
      ([{ player_id := 1, ranks := [⟨1, 0⟩, ⟨2, 1⟩], score := 0,
          maps_finished := 2, rank := 0, worst := ⟨0, 0⟩ },
        { player_id := 2, ranks := [⟨3, 0⟩, ⟨3, 1⟩], score := 0,
          maps_finished := 1, rank := 0, worst := ⟨0, 0⟩ }], [3, 2]) := by
  decide

theorem calc_scores_scenario_eval :
    calc_scores mappackScenario =
      [{ player_id := 1, ranks := [⟨1, 0⟩, ⟨2, 1⟩], score := 3 / 2,
         maps_finished := 2, rank := 1, worst := ⟨2, 1⟩ },
       { player_id := 2, ranks := [⟨3, 0⟩, ⟨3, 1⟩], score := 3,
         maps_finished := 1, rank := 2, worst := ⟨3, 1⟩ }] := by
  rw [calc_scores, buildRanks_scenario_eval]
  norm_num [aggregatePlayer, sortStable, insertStable, rankLt, playerLt,
    assignRanks, assignRanksAux, Int.tdiv]

/-- Claim C5 is refuted by the code: in the 2-map scenario, player 3 (C),
who finished neither map, never enters the score table at all — the
computed scores contain only players 1 (A) and 2 (B), so no row with
`maps_finished = 0` and two penalty ranks exists for C. -/
theorem mappack_scenario_refutes :
    (calc_scores mappackScenario).map PlayerScore.player_id = [1, 2]
      ∧ ¬ ∃ p ∈ calc_scores mappackScenario, p.player_id = 3 := by
  rw [calc_scores_scenario_eval]
  refine ⟨rfl, ?_⟩
  decide

/-- Claim C5 as amended: in the 2-map scenario the computed scores
contain exactly player 1 (A) with both real ranks and `maps_finished = 2`
and player 2 (B) with the real rank 3 on map 0, the penalty rank 3 on
map 1 and `maps_finished = 1`; the overall ranking orders A (rank 1)
before B (rank 2), and C does not appear. -/
theorem mappack_scenario_scores :
    calc_scores mappackScenario =
      [{ player_id := 1, ranks := [⟨1, 0⟩, ⟨2, 1⟩], score := 3 / 2,
         maps_finished := 2, rank := 1, worst := ⟨2, 1⟩ },
       { player_id := 2, ranks := [⟨3, 0⟩, ⟨3, 1⟩], score := 3,
         maps_finished := 1, rank := 2, worst := ⟨3, 1⟩ }] :=
  calc_scores_scenario_eval

/-! ### Finish validation and cache write-through (claims C9, C10) -/

/-- Claim C9 as amended: a finish submission whose checkpoint times do
not sum — as wrapping i32 arithmetic — to the submitted total time, or
whose checkpoint count differs from the map's expected count, is rejected
with the validation error before any cache or relational-store mutation:
the mutation trace is empty. -/
theorem finished_rejects_invalid (map : MapModel) (player_id : Nat)
    (body : FinishBody) (zadd_ok : Bool) (benchmark : Option MapModel)
    (h : i32sum body.cps ≠ body.time
        ∨ ∃ n, map.cps_number = some n
            ∧ (n + 1) % 2 ^ 32 ≠ body.cps.length % 2 ^ 32) :
    finished map player_id body zadd_ok benchmark
      = ([], Except.error RecordsError.invalidTimes) := by
  have hc : invalidTimesCheck map body = true := by
    rcases h with h | ⟨n, hn, hne⟩
    · unfold invalidTimesCheck
      simp [h]
    · unfold invalidTimesCheck
      rw [hn]
      dsimp only
      simp only [Bool.or_eq_true, decide_eq_true_eq]
      exact Or.inl (by simpa using hne)
  unfold finished
  rw [hc]
  rfl

/-- Witness for claim C9: one checkpoint of 5 ms against a submitted
total of 4 ms is rejected with no mutation performed. -/
theorem finished_rejects_invalid_witness :
    (i32sum [5] ≠ (4 : Int)
        ∨ ∃ n, (some 0 : Option Nat) = some n
            ∧ (n + 1) % 2 ^ 32 ≠ ([(5 : Int)] : List Int).length % 2 ^ 32)
      ∧ finished ⟨9, some 0, none⟩ 7 ⟨4, 0, [5]⟩ true none
          = ([], Except.error RecordsError.invalidTimes) :=
  ⟨Or.inl (by decide),
    finished_rejects_invalid ⟨9, some 0, none⟩ 7 ⟨4, 0, [5]⟩ true none
      (Or.inl (by decide))⟩

/-- Claim C9 as stated is refuted by the code: four checkpoints of
2^30 ms sum to 2^32 ≠ 0, yet the i32 sum wraps to 0, so a submission
with total time 0 passes validation and the record is inserted. -/
theorem finished_overflow_refutes :
    (([1073741824, 1073741824, 1073741824, 1073741824] : List Int).sum ≠ (0 : Int))
      ∧ (finished ⟨9, some 3, none⟩ 7
            ⟨0, 0, [1073741824, 1073741824, 1073741824, 1073741824]⟩ true none).2
          = Except.ok ()
      ∧ (finished ⟨9, some 3, none⟩ 7
            ⟨0, 0, [1073741824, 1073741824, 1073741824, 1073741824]⟩ true none).1
          ≠ [] := by
  refine ⟨by decide, rfl, by decide⟩

theorem zinsert_find_self (e : ZEntry) :
    ∀ l : Cache, (∀ x ∈ l, (x.member == e.member) = false) →
      (zinsert e l).find? (fun x => x.member == e.member) = some e := by
  intro l
  induction l with
  | nil => intro _; simp [zinsert, List.find?]
  | cons y ys ih =>
    intro h
    have hy : (y.member == e.member) = false := h y (List.mem_cons_self _ _)
    unfold zinsert
    by_cases hlt : zentryLt y e = true
    · rw [if_pos hlt]
      rw [List.find?_cons_of_neg _ (by simp [hy])]
      exact ih fun x hx => h x (List.mem_cons_of_mem _ hx)
    · rw [if_neg hlt]
      rw [List.find?_cons_of_pos _ (by simp)]

theorem zscore_zadd (cache : Cache) (m : Nat) (s : Int) :
    zscore (zadd cache m s) m = some s := by
  unfold zscore zadd
  have h : ∀ x ∈ cache.filter (fun e => !(e.member == m)),
      (x.member == ({ member := m, score := s } : ZEntry).member) = false := by
    intro x hx
    have := (List.mem_filter.1 hx).2
    simpa using this
  rw [zinsert_find_self _ _ h]
  rfl

/-- Claim C10: for a validated submission, `insert_record` performs the
cache sorted-set write of the submitted time first — strictly before the
relational insert of the record and its checkpoint times — and that write
unconditionally overwrites the player's cache score, even when an old
(possibly better) score exists: afterwards the player's cache entry is
exactly the most recently submitted time. -/
theorem insert_record_cache_write_through (map : MapModel) (player_id : Nat)
    (body : FinishBody) (cache : Cache) (old : Int)
    (_hold : zscore cache player_id = some old) :
    insert_record map player_id body true
        = [Mutation.cacheZadd map.id player_id body.time,
           Mutation.sqlInsertRecord map.id player_id body.time body.respawn_count,
           Mutation.sqlInsertCps map.id body.cps]
      ∧ zscore (zadd cache player_id body.time) player_id = some body.time :=
  ⟨rfl, zscore_zadd cache player_id body.time⟩

/-- Witness for claim C10: the player already holds the better time 3;
submitting the worse time 9 still overwrites the cache entry to 9, and
the cache write precedes the SQL inserts in the trace. -/
theorem insert_record_cache_write_through_witness :
    zscore [⟨7, 3⟩] 7 = some 3
      ∧ insert_record ⟨1, none, none⟩ 7 ⟨9, 0, [9]⟩ true
          = [Mutation.cacheZadd 1 7 9, Mutation.sqlInsertRecord 1 7 9 0,
             Mutation.sqlInsertCps 1 [9]]
      ∧ zscore (zadd [⟨7, 3⟩] 7 9) 7 = some 9 :=
  ⟨by decide,
    (insert_record_cache_write_through ⟨1, none, none⟩ 7 ⟨9, 0, [9]⟩ [⟨7, 3⟩] 3
      (by decide)).1,
    (insert_record_cache_write_through ⟨1, none, none⟩ 7 ⟨9, 0, [9]⟩ [⟨7, 3⟩] 3
      (by decide)).2⟩

/-! ### Overall sort and stable-tie rank assignment (claim C4) -/

theorem insertStable_perm {α : Type} (lt : α → α → Bool) (x : α) :
    ∀ l : List α, (insertStable lt x l).Perm (x :: l) := by
  intro l
  induction l with
  | nil => rfl
  | cons y ys ih =>
    unfold insertStable
    by_cases hlt : lt y x = true
    · rw [if_pos hlt]
      exact (ih.cons y).trans (List.Perm.swap x y ys)
    · rw [if_neg hlt]

theorem sortStable_perm {α : Type} (lt : α → α → Bool) :
    ∀ l : List α, (sortStable lt l).Perm l := by
  intro l
  induction l with
  | nil => rfl
  | cons x xs ih =>
    have hs : sortStable lt (x :: xs) = insertStable lt x (sortStable lt xs) := rfl
    rw [hs]
    exact (insertStable_perm lt x (sortStable lt xs)).trans (ih.cons x)

theorem mem_insertStable {α : Type} {lt : α → α → Bool} {x a : α} {l : List α} :
    a ∈ insertStable lt x l ↔ a = x ∨ a ∈ l := by
  rw [(insertStable_perm lt x l).mem_iff, List.mem_cons]

theorem insertStable_pairwise {α : Type} (lt : α → α → Bool)
    (hasym : ∀ a b, lt a b = true → lt b a = false)
    (htrans : ∀ a b c, lt b a = false → lt c b = false → lt c a = false)
    (x : α) :
    ∀ l : List α, List.Pairwise (fun a b => lt b a = false) l →
      List.Pairwise (fun a b => lt b a = false) (insertStable lt x l) := by
  intro l
  induction l with
  | nil =>
    intro _
    simp only [insertStable]
    exact List.pairwise_singleton _ x
  | cons y ys ih =>
    intro hp
    rw [List.pairwise_cons] at hp
    obtain ⟨hy, hys⟩ := hp
    unfold insertStable
    by_cases hlt : lt y x = true
    · rw [if_pos hlt]
      rw [List.pairwise_cons]
      refine ⟨?_, ih hys⟩
      intro z hz
      rcases mem_insertStable.1 hz with rfl | hz'
      · exact hasym _ _ hlt
      · exact hy z hz'
    · rw [if_neg hlt]
      have hxy : lt y x = false := by
        simpa using hlt
      rw [List.pairwise_cons]
      constructor
      · intro z hz
        rcases List.mem_cons.1 hz with rfl | hz'
        · exact hxy
        · exact htrans x y z hxy (hy z hz')
      · rw [List.pairwise_cons]
        exact ⟨hy, hys⟩

theorem sortStable_pairwise {α : Type} (lt : α → α → Bool)
    (hasym : ∀ a b, lt a b = true → lt b a = false)
    (htrans : ∀ a b c, lt b a = false → lt c b = false → lt c a = false) :
    ∀ l : List α, List.Pairwise (fun a b => lt b a = false) (sortStable lt l) := by
  intro l
  induction l with
  | nil => exact List.Pairwise.nil
  | cons x xs ih =>
    exact insertStable_pairwise lt hasym htrans x _ ih

theorem playerLt_eq_false_iff (x y : PlayerScore) :
    playerLt x y = false ↔ x.maps_finished < y.maps_finished
      ∨ (x.maps_finished = y.maps_finished ∧ y.score ≤ x.score) := by
  unfold playerLt
  by_cases h : x.maps_finished = y.maps_finished
  · rw [if_neg (by simpa using h)]
    simp [h, decide_eq_false_iff_not, not_lt]
  · rw [if_pos h]
    simp only [decide_eq_false_iff_not, not_lt]
    constructor
    · intro hle
      left
      omega
    · rintro (hlt | ⟨heq, -⟩)
      · omega
      · exact absurd heq h

theorem playerLt_asym (a b : PlayerScore) :
    playerLt a b = true → playerLt b a = false := by
  intro h
  rw [playerLt_eq_false_iff]
  unfold playerLt at h
  by_cases hmf : a.maps_finished = b.maps_finished
  · rw [if_neg (by simpa using hmf)] at h
    rw [decide_eq_true_eq] at h
    exact Or.inr ⟨hmf.symm, le_of_lt h⟩
  · rw [if_pos hmf] at h
    rw [decide_eq_true_eq] at h
    exact Or.inl h

theorem playerLt_false_trans (a b c : PlayerScore) :
    playerLt b a = false → playerLt c b = false → playerLt c a = false := by
  rw [playerLt_eq_false_iff, playerLt_eq_false_iff, playerLt_eq_false_iff]
  rintro (h1 | ⟨h1e, h1s⟩) (h2 | ⟨h2e, h2s⟩)
  · exact Or.inl (by omega)
  · exact Or.inl (by omega)
  · exact Or.inl (by omega)
  · exact Or.inr ⟨by omega, le_trans h1s h2s⟩

theorem assignRanksAux_length (os : ℚ) (of : Nat) (orank idx : Nat) :
    ∀ l : List PlayerScore,
      (assignRanksAux os of orank idx l).length = l.length := by
  intro l
  induction l generalizing os of orank idx with
  | nil => rfl
  | cons p ps ih =>
    unfold assignRanksAux
    simp [ih]

theorem assignRanksAux_forall2 (os : ℚ) (of : Nat) (orank idx : Nat) :
    ∀ l : List PlayerScore,
      List.Forall₂ (fun p q => q.player_id = p.player_id ∧ q.ranks = p.ranks
          ∧ q.score = p.score ∧ q.maps_finished = p.maps_finished ∧ q.worst = p.worst)
        l (assignRanksAux os of orank idx l) := by
  intro l
  induction l generalizing os of orank idx with
  | nil => exact List.Forall₂.nil
  | cons p ps ih =>
    unfold assignRanksAux
    exact List.Forall₂.cons ⟨rfl, rfl, rfl, rfl, rfl⟩ (ih _ _ _ _)

theorem forall2_getD {α β : Type} {R : α → β → Prop} {d : α} {e : β}
    (hd : R d e) :
    ∀ {l : List α} {l' : List β}, List.Forall₂ R l l' →
      ∀ j, R (l.getD j d) (l'.getD j e) := by
  intro l l' h
  induction h with
  | nil => intro j; simpa using hd
  | cons hab hrest ih =>
    intro j
    cases j with
    | zero => simpa using hab
    | succ j => simpa using ih j

theorem assignRanksAux_rank_le (d : PlayerScore) :
    ∀ (l : List PlayerScore) (os : ℚ) (of : Nat) (orank idx : Nat),
      orank ≤ idx → ∀ j, j < l.length →
        ((assignRanksAux os of orank idx l).getD j d).rank ≤ idx + j + 1 := by
  intro l
  induction l with
  | nil => intro os of orank idx _ j hj; simp at hj
  | cons p ps ih =>
    intro os of orank idx hor j hj
    unfold assignRanksAux
    cases j with
    | zero =>
      simp only [List.getD_cons_zero]
      split
      · omega
      · omega
    | succ j =>
      simp only [List.getD_cons_succ]
      have hj' : j < ps.length := by simpa using hj
      have hr : (if os = p.score ∧ of = p.maps_finished then orank else idx + 1) ≤ idx + 1 := by
        split
        · omega
        · omega
      have := ih p.score p.maps_finished _ (idx + 1) hr j hj'
      omega

theorem assignRanksAux_rank_succ (d : PlayerScore) :
    ∀ (l : List PlayerScore) (os : ℚ) (of : Nat) (orank idx : Nat) (j : Nat),
      j + 1 < l.length →
      ((assignRanksAux os of orank idx l).getD (j + 1) d).rank
        = if (l.getD (j + 1) d).score = (l.getD j d).score
              ∧ (l.getD (j + 1) d).maps_finished = (l.getD j d).maps_finished
          then ((assignRanksAux os of orank idx l).getD j d).rank
          else idx + (j + 1) + 1 := by
  intro l
  induction l with
  | nil => intro os of orank idx j hj; simp at hj
  | cons p ps ih =>
    intro os of orank idx j hj
    cases ps with
    | nil => simp at hj
    | cons q ps' =>
      cases j with
      | zero =>
        show ((assignRanksAux os of orank idx (p :: q :: ps')).getD 1 d).rank = _
        unfold assignRanksAux
        unfold assignRanksAux
        simp only [List.getD_cons_succ, List.getD_cons_zero]
        by_cases hc : q.score = p.score ∧ q.maps_finished = p.maps_finished
        · rw [if_pos ⟨hc.1.symm, hc.2.symm⟩, if_pos hc]
        · have hc' : ¬(p.score = q.score ∧ p.maps_finished = q.maps_finished) := by
            intro hcc
            exact hc ⟨hcc.1.symm, hcc.2.symm⟩
          rw [if_neg hc', if_neg hc]
      | succ j =>
        have hj' : j + 1 < (q :: ps').length := by simpa using hj
        have hrec := ih p.score p.maps_finished
          (if os = p.score ∧ of = p.maps_finished then orank else idx + 1)
          (idx + 1) j hj'
        show ((assignRanksAux os of orank idx (p :: q :: ps')).getD (j + 2) d).rank = _
        unfold assignRanksAux
        simp only [List.getD_cons_succ] at hrec ⊢
        rw [hrec]
        by_cases hc : (ps'.getD j d).score = ((q :: ps').getD j d).score
            ∧ (ps'.getD j d).maps_finished = ((q :: ps').getD j d).maps_finished
        · rw [if_pos hc, if_pos hc]
        · rw [if_neg hc, if_neg hc]
          omega

/-- Claim C4: after the per-player aggregates are computed, the player
list is stably sorted with primary key `maps_finished` descending and
secondary key `score` ascending (the sorted list is a permutation of the
input and pairwise ordered), and the overall rank pass — which changes
nothing but the `rank` field — gives the first player rank 1 and gives
every later player the same rank as the immediately preceding player
exactly when both score and finished count are equal to the preceding
player's, and their 1-based position `j + 2` otherwise.  The hypothesis
excludes the impossible aggregate (score 0 with 0 finished maps), whose
collision with the loop's zero-initialised state would make the very
first player inherit the sentinel rank 0; every real aggregate has a
positive score since every rank is at least 1. -/
theorem mappack_overall_sort_and_rank (l : List PlayerScore)
    (h : ∀ p ∈ l, ¬(p.score = 0 ∧ p.maps_finished = 0)) :
    (sortStable playerLt l).Perm l
    ∧ List.Pairwise (fun a b => b.maps_finished < a.maps_finished
        ∨ (a.maps_finished = b.maps_finished ∧ a.score ≤ b.score))
        (sortStable playerLt l)
    ∧ List.Forall₂ (fun p q => q.player_id = p.player_id ∧ q.ranks = p.ranks
        ∧ q.score = p.score ∧ q.maps_finished = p.maps_finished ∧ q.worst = p.worst)
        (sortStable playerLt l) (assignRanks (sortStable playerLt l))
    ∧ (0 < (assignRanks (sortStable playerLt l)).length →
        ((assignRanks (sortStable playerLt l)).getD 0 (initPlayer 0)).rank = 1)
    ∧ (∀ j, j + 1 < (assignRanks (sortStable playerLt l)).length →
        (((assignRanks (sortStable playerLt l)).getD (j + 1) (initPlayer 0)).rank
            = ((assignRanks (sortStable playerLt l)).getD j (initPlayer 0)).rank
          ↔ ((assignRanks (sortStable playerLt l)).getD (j + 1) (initPlayer 0)).score
              = ((assignRanks (sortStable playerLt l)).getD j (initPlayer 0)).score
            ∧ ((assignRanks (sortStable playerLt l)).getD (j + 1) (initPlayer 0)).maps_finished
              = ((assignRanks (sortStable playerLt l)).getD j (initPlayer 0)).maps_finished)
        ∧ (¬(((assignRanks (sortStable playerLt l)).getD (j + 1) (initPlayer 0)).score
              = ((assignRanks (sortStable playerLt l)).getD j (initPlayer 0)).score
            ∧ ((assignRanks (sortStable playerLt l)).getD (j + 1) (initPlayer 0)).maps_finished
              = ((assignRanks (sortStable playerLt l)).getD j (initPlayer 0)).maps_finished) →
            ((assignRanks (sortStable playerLt l)).getD (j + 1) (initPlayer 0)).rank
              = j + 2)) := by
  unfold assignRanks
  refine ⟨sortStable_perm playerLt l, ?_, assignRanksAux_forall2 0 0 0 0 _, ?_, ?_⟩
  · have hp := sortStable_pairwise playerLt playerLt_asym playerLt_false_trans l
    refine hp.imp ?_
    intro a b hab
    rw [playerLt_eq_false_iff] at hab
    exact hab.imp id (fun he => ⟨he.1.symm, he.2⟩)
  · intro h0
    rw [assignRanksAux_length] at h0
    cases hs : sortStable playerLt l with
    | nil => rw [hs] at h0; simp at h0
    | cons p ps =>
      have hpl : p ∈ l :=
        (sortStable_perm playerLt l).subset (hs ▸ List.mem_cons_self p ps)
      have hnp := h p hpl
      unfold assignRanksAux
      simp only [List.getD_cons_zero]
      rw [if_neg fun hc => hnp ⟨hc.1.symm, hc.2.symm⟩]
  · intro j hj
    rw [assignRanksAux_length] at hj
    have hsucc := assignRanksAux_rank_succ (initPlayer 0) (sortStable playerLt l)
      0 0 0 0 j hj
    have hpres : ∀ k,
        ((assignRanksAux 0 0 0 0 (sortStable playerLt l)).getD k (initPlayer 0)).score
          = ((sortStable playerLt l).getD k (initPlayer 0)).score
        ∧ ((assignRanksAux 0 0 0 0 (sortStable playerLt l)).getD k (initPlayer 0)).maps_finished
          = ((sortStable playerLt l).getD k (initPlayer 0)).maps_finished := by
      intro k
      have hk := forall2_getD (d := initPlayer 0) (e := initPlayer 0)
        ⟨rfl, rfl, rfl, rfl, rfl⟩ (assignRanksAux_forall2 0 0 0 0 (sortStable playerLt l)) k
      exact ⟨hk.2.2.1, hk.2.2.2.1⟩
    obtain ⟨hsc1, hmf1⟩ := hpres j
    obtain ⟨hsc2, hmf2⟩ := hpres (j + 1)
    rw [← hsc1, ← hsc2, ← hmf1, ← hmf2] at hsucc
    have hle := assignRanksAux_rank_le (initPlayer 0) (sortStable playerLt l)
      0 0 0 0 (le_refl 0) j (by omega)
    constructor
    · constructor
      · intro heq
        by_contra hc
        rw [if_neg hc] at hsucc
        omega
      · intro hc
        rw [if_pos hc] at hsucc
        exact hsucc
    · intro hc
      rw [if_neg hc] at hsucc
      rw [hsucc]
      omega

/-- Witness for claim C4: players 2 and 3 tie exactly on score and
finished count, and the rank pass gives them the same overall rank. -/
theorem mappack_overall_sort_and_rank_witness :
    (∀ p ∈ overallWitnessPlayers, ¬(p.score = 0 ∧ p.maps_finished = 0))
    ∧ ((assignRanks (sortStable playerLt overallWitnessPlayers)).getD 1
          (initPlayer 0)).rank
        = ((assignRanks (sortStable playerLt overallWitnessPlayers)).getD 0
          (initPlayer 0)).rank :=
  ⟨by decide,
    ((mappack_overall_sort_and_rank overallWitnessPlayers
        (by decide)).2.2.2.2 0 (by decide)).1.mpr (by decide)⟩

/-! ### Penalty ranks in the mappack pipeline (claim C3) -/

theorem forall2_compose_mem {α β γ : Type} {R : α → β → Prop} {S : β → γ → Prop}
    {T : α → γ → Prop} :
    ∀ {l1 : List α} {l2 : List β} {l3 : List γ},
      List.Forall₂ R l1 l2 → List.Forall₂ S l2 l3 →
      (∀ a b c, a ∈ l1 → R a b → S b c → T a c) → List.Forall₂ T l1 l3 := by
  intro l1 l2 l3 h12
  induction h12 generalizing l3 with
  | nil =>
    intro h23 _
    cases h23
    exact List.Forall₂.nil
  | cons hab h ih =>
    intro h23 hT
    cases h23 with
    | cons hbc h' =>
      exact List.Forall₂.cons (hT _ _ _ (List.mem_cons_self _ _) hab hbc)
        (ih h' fun a b c ha => hT a b c (List.mem_cons_of_mem _ ha))

theorem forall2_mem_right {α β : Type} {R : α → β → Prop} :
    ∀ {l : List α} {l' : List β}, List.Forall₂ R l l' →
      ∀ y ∈ l', ∃ x ∈ l, R x y := by
  intro l l' h
  induction h with
  | nil => intro y hy; cases hy
  | cons hab h ih =>
    intro y hy
    rcases List.mem_cons.1 hy with rfl | hy'
    · exact ⟨_, List.mem_cons_self _ _, hab⟩
    · obtain ⟨x, hx, hr⟩ := ih y hy'
      exact ⟨x, List.mem_cons_of_mem _ hx, hr⟩

theorem forall2_map_right_eq {α β γ : Type} {R : α → β → Prop}
    (f : α → γ) (g : β → γ) (hf : ∀ a b, R a b → g b = f a) :
    ∀ {l : List α} {l' : List β}, List.Forall₂ R l l' → l'.map g = l.map f := by
  intro l l' h
  induction h with
  | nil => rfl
  | cons hab h ih => simp [hf _ _ hab, ih]

theorem forall2_map_self {α : Type} (f : α → α) :
    ∀ l : List α, List.Forall₂ (fun a b => b = f a) l (l.map f) := by
  intro l
  induction l with
  | nil => exact List.Forall₂.nil
  | cons x xs ih => exact List.Forall₂.cons rfl ih

theorem pushRecord_forall2 (idx : Nat) (r : RankedRecord) :
    ∀ scores : List PlayerScore, (scores.map PlayerScore.player_id).Nodup →
      List.Forall₂ (fun pl pl' => pl'.player_id = pl.player_id
        ∧ (pl.player_id = r.player_id →
            pl' = { pl with
              ranks := pl.ranks ++ [{ rank := r.rank, map_idx := idx }],
              maps_finished := pl.maps_finished + 1 })
        ∧ (pl.player_id ≠ r.player_id → pl' = pl))
      scores (pushRecord idx r scores) := by
  intro scores
  induction scores with
  | nil => intro _; exact List.Forall₂.nil
  | cons x xs ih =>
    intro hnd
    rw [List.map_cons, List.nodup_cons] at hnd
    obtain ⟨hxmem, hnd'⟩ := hnd
    unfold pushRecord updateFirst
    by_cases hx : (x.player_id == r.player_id) = true
    · rw [if_pos hx]
      have hxeq : x.player_id = r.player_id := by simpa using hx
      refine List.Forall₂.cons ⟨rfl, fun _ => rfl, fun hne => absurd hxeq hne⟩ ?_
      rw [List.forall₂_same]
      intro y hy
      have hyne : y.player_id ≠ r.player_id := by
        intro hc
        exact hxmem (by
          rw [hxeq, ← hc]
          exact List.mem_map_of_mem PlayerScore.player_id hy)
      exact ⟨rfl, fun hc => absurd hc hyne, fun _ => rfl⟩
    · rw [if_neg hx]
      have hxne : x.player_id ≠ r.player_id := by simpa using hx
      exact List.Forall₂.cons ⟨rfl, fun hc => absurd hc hxne, fun _ => rfl⟩ (ih hnd')

theorem foldRecs_forall2 (idx : Nat) :
    ∀ (recs : List RankedRecord) (scores : List PlayerScore),
      (scores.map PlayerScore.player_id).Nodup →
      (recs.map RankedRecord.player_id).Nodup →
      List.Forall₂ (fun pl pl' => pl'.player_id = pl.player_id
          ∧ pl'.ranks = pl.ranks ++ foundEntry recs pl.player_id idx
          ∧ pl'.score = pl.score ∧ pl'.rank = pl.rank ∧ pl'.worst = pl.worst)
        scores (recs.foldl (fun s r => pushRecord idx r s) scores) := by
  intro recs
  induction recs with
  | nil =>
    intro scores _ _
    rw [List.foldl_nil, List.forall₂_same]
    intro x _
    exact ⟨rfl, by simp [foundEntry, List.find?], rfl, rfl, rfl⟩
  | cons r rs ih =>
    intro scores hnd hrnd
    rw [List.map_cons, List.nodup_cons] at hrnd
    obtain ⟨hrmem, hrnd'⟩ := hrnd
    rw [List.foldl_cons]
    have h1 := pushRecord_forall2 idx r scores hnd
    have hids : (pushRecord idx r scores).map PlayerScore.player_id
        = scores.map PlayerScore.player_id := by
      refine forall2_map_right_eq _ _ ?_ h1
      intro a b hab
      exact hab.1
    have h2 := ih (pushRecord idx r scores) (hids ▸ hnd) hrnd'
    refine forall2_compose_mem h1 h2 ?_
    intro pl plm pl' _ hR hS
    obtain ⟨hpid1, hsome, hnone⟩ := hR
    obtain ⟨hpid2, hranks2, hsc2, hrk2, hw2⟩ := hS
    by_cases hc : pl.player_id = r.player_id
    · have hplm := hsome hc
      subst hplm
      have hfind : rs.find? (fun rr => rr.player_id == pl.player_id) = none := by
        rw [List.find?_eq_none]
        intro rr hrr
        simp only [beq_iff_eq]
        intro hceq
        exact hrmem (by
          rw [← hc, ← hceq]
          exact List.mem_map_of_mem RankedRecord.player_id hrr)
      refine ⟨by simpa using hpid2, ?_, by simpa using hsc2, by simpa using hrk2,
        by simpa using hw2⟩
      rw [hranks2]
      simp only [foundEntry]
      rw [List.find?_cons_of_pos _ (by simpa using hc.symm), hfind]
      simp
    · have hplm := hnone hc
      subst hplm
      refine ⟨hpid2, ?_, hsc2, hrk2, hw2⟩
      rw [hranks2]
      simp only [foundEntry]
      rw [List.find?_cons_of_neg _ (by simpa using fun hceq => hc hceq.symm)]

theorem applyPenalties_forall2 (idx : Nat) (lr : Int) (scores : List PlayerScore) :
    List.Forall₂ (fun pl pl' =>
        pl' = if pl.ranks.length < idx + 1
          then { pl with ranks := pl.ranks ++ [{ rank := lr + 1, map_idx := idx }] }
          else pl)
      scores (applyPenalties idx lr scores) :=
  forall2_map_self _ scores

theorem processMap_forall2 (idx : Nat) (recs : List RankedRecord)
    (scores : List PlayerScore)
    (hnd : (scores.map PlayerScore.player_id).Nodup)
    (hrnd : (recs.map RankedRecord.player_id).Nodup)
    (hlen : ∀ pl ∈ scores, pl.ranks.length = idx) :
    List.Forall₂ (fun pl pl' => pl'.player_id = pl.player_id
        ∧ pl'.ranks = pl.ranks ++ [expectedEntryAux recs pl.player_id idx])
      scores (processMap idx recs scores) := by
  unfold processMap
  refine forall2_compose_mem (foldRecs_forall2 idx recs scores hnd hrnd)
    (applyPenalties_forall2 idx (lastRankOf recs) _) ?_
  intro pl plm pl' hpl hR hS
  obtain ⟨hpid, hranks, -, -, -⟩ := hR
  have hplen := hlen pl hpl
  unfold foundEntry at hranks
  unfold expectedEntryAux
  cases hfind : recs.find? (fun rr => rr.player_id == pl.player_id) with
  | some r =>
    rw [hfind] at hranks
    have hlenm : plm.ranks.length = idx + 1 := by
      rw [hranks]
      simp [hplen]
    rw [if_neg (by omega)] at hS
    subst hS
    exact ⟨hpid, hranks⟩
  | none =>
    rw [hfind] at hranks
    rw [List.append_nil] at hranks
    have hlenm : plm.ranks.length = idx := by rw [hranks, hplen]
    rw [if_pos (by omega)] at hS
    subst hS
    refine ⟨by simpa using hpid, ?_⟩
    simp only [hranks]

theorem buildRanksAux_spec :
    ∀ (mrs : List (List RankedRecord)) (idx : Nat) (scores : List PlayerScore),
      (scores.map PlayerScore.player_id).Nodup →
      (∀ recs ∈ mrs, (recs.map RankedRecord.player_id).Nodup) →
      (∀ pl ∈ scores, pl.ranks.length = idx) →
      (buildRanksAux idx mrs scores).2 = mrs.map lastRankOf
      ∧ List.Forall₂ (fun pl pl' => pl'.player_id = pl.player_id
          ∧ pl'.ranks = pl.ranks ++ expectedRanks pl.player_id idx mrs)
        scores (buildRanksAux idx mrs scores).1 := by
  intro mrs
  induction mrs with
  | nil =>
    intro idx scores _ _ _
    refine ⟨rfl, ?_⟩
    have hb : (buildRanksAux idx [] scores).1 = scores := rfl
    rw [hb, List.forall₂_same]
    intro x _
    exact ⟨rfl, by simp [expectedRanks]⟩
  | cons recs rest ih =>
    intro idx scores hnd hrnd hlen
    have hE := processMap_forall2 idx recs scores hnd
      (hrnd recs (List.mem_cons_self _ _)) hlen
    have hids : (processMap idx recs scores).map PlayerScore.player_id
        = scores.map PlayerScore.player_id := by
      refine forall2_map_right_eq _ _ ?_ hE
      intro a b hab
      exact hab.1
    have hlenm : ∀ plm ∈ processMap idx recs scores, plm.ranks.length = idx + 1 := by
      intro plm hplm
      obtain ⟨pl, hpl, hpid, hranks⟩ := forall2_mem_right hE plm hplm
      rw [hranks]
      simp [hlen pl hpl]
    have hrest := ih (idx + 1) (processMap idx recs scores) (hids ▸ hnd)
      (fun rr hrr => hrnd rr (List.mem_cons_of_mem _ hrr)) hlenm
    constructor
    · show lastRankOf recs :: (buildRanksAux (idx + 1) rest (processMap idx recs scores)).2
        = lastRankOf recs :: rest.map lastRankOf
      rw [hrest.1]
    · show List.Forall₂ _ scores (buildRanksAux (idx + 1) rest (processMap idx recs scores)).1
      refine forall2_compose_mem hE hrest.2 ?_
      intro pl plm pl' _ hR hS
      obtain ⟨hpid1, hranks1⟩ := hR
      obtain ⟨hpid2, hranks2⟩ := hS
      refine ⟨hpid2.trans hpid1, ?_⟩
      rw [hranks2, hranks1, hpid1]
      rw [List.append_assoc]
      rfl

theorem collectStep_extend (acc : List PlayerScore) (r : RankedRecord) :
    ∃ ext, collectStep acc r = acc ++ ext := by
  unfold collectStep
  by_cases h : acc.any (fun p => p.player_id == r.player_id) = true
  · rw [if_pos h]
    exact ⟨[], by simp⟩
  · rw [if_neg h]
    exact ⟨[initPlayer r.player_id], rfl⟩

theorem collectInner_extend :
    ∀ (recs : List RankedRecord) (acc : List PlayerScore),
      ∃ ext, recs.foldl collectStep acc = acc ++ ext := by
  intro recs
  induction recs with
  | nil => intro acc; exact ⟨[], by simp⟩
  | cons r rs ih =>
    intro acc
    rw [List.foldl_cons]
    obtain ⟨e1, he1⟩ := collectStep_extend acc r
    obtain ⟨e2, he2⟩ := ih (collectStep acc r)
    exact ⟨e1 ++ e2, by rw [he2, he1, List.append_assoc]⟩

theorem collectOuter_extend :
    ∀ (mrs : List (List RankedRecord)) (acc : List PlayerScore),
      ∃ ext, mrs.foldl (fun acc recs => recs.foldl collectStep acc) acc = acc ++ ext := by
  intro mrs
  induction mrs with
  | nil => intro acc; exact ⟨[], by simp⟩
  | cons recs rest ih =>
    intro acc
    rw [List.foldl_cons]
    obtain ⟨e1, he1⟩ := collectInner_extend recs acc
    obtain ⟨e2, he2⟩ := ih (recs.foldl collectStep acc)
    exact ⟨e1 ++ e2, by rw [he2, he1, List.append_assoc]⟩

theorem collectStep_has (acc : List PlayerScore) (r : RankedRecord) :
    ∃ pl ∈ collectStep acc r, pl.player_id = r.player_id := by
  unfold collectStep
  by_cases h : acc.any (fun p => p.player_id == r.player_id) = true
  · rw [if_pos h]
    rw [List.any_eq_true] at h
    obtain ⟨x, hx, hbeq⟩ := h
    exact ⟨x, hx, by simpa using hbeq⟩
  · rw [if_neg h]
    exact ⟨initPlayer r.player_id, by simp, rfl⟩

theorem collectInner_has :
    ∀ (recs : List RankedRecord) (acc : List PlayerScore) (r : RankedRecord),
      r ∈ recs → ∃ pl ∈ recs.foldl collectStep acc, pl.player_id = r.player_id := by
  intro recs
  induction recs with
  | nil => intro acc r hr; cases hr
  | cons r0 rs ih =>
    intro acc r hr
    rw [List.foldl_cons]
    rcases List.mem_cons.1 hr with rfl | hr'
    · obtain ⟨pl, hpl, hpid⟩ := collectStep_has acc r
      obtain ⟨ext, hext⟩ := collectInner_extend rs (collectStep acc r)
      exact ⟨pl, hext ▸ List.mem_append_left _ hpl, hpid⟩
    · exact ih (collectStep acc r0) r hr'

theorem collect_has :
    ∀ (mrs : List (List RankedRecord)) (acc : List PlayerScore)
      (recs : List RankedRecord) (r : RankedRecord),
      recs ∈ mrs → r ∈ recs →
      ∃ pl ∈ mrs.foldl (fun acc recs => recs.foldl collectStep acc) acc,
        pl.player_id = r.player_id := by
  intro mrs
  induction mrs with
  | nil => intro acc recs r hrecs _; cases hrecs
  | cons recs0 rest ih =>
    intro acc recs r hrecs hr
    rw [List.foldl_cons]
    rcases List.mem_cons.1 hrecs with rfl | hrecs'
    · obtain ⟨pl, hpl, hpid⟩ := collectInner_has recs acc r hr
      obtain ⟨ext, hext⟩ := collectOuter_extend rest (recs.foldl collectStep acc)
      exact ⟨pl, hext ▸ List.mem_append_left _ hpl, hpid⟩
    · exact ih (recs0.foldl collectStep acc) recs r hrecs' hr

theorem collectStep_nodup {acc : List PlayerScore} (r : RankedRecord)
    (hnd : (acc.map PlayerScore.player_id).Nodup) :
    ((collectStep acc r).map PlayerScore.player_id).Nodup := by
  unfold collectStep
  by_cases h : acc.any (fun p => p.player_id == r.player_id) = true
  · rw [if_pos h]
    exact hnd
  · rw [if_neg h]
    rw [List.map_append]
    rw [List.nodup_append]
    refine ⟨hnd, by simp [initPlayer], ?_⟩
    intro a ha hb
    rw [Bool.not_eq_true] at h
    rw [List.any_eq_false] at h
    simp only [List.map_cons, List.map_nil, List.mem_singleton, initPlayer] at hb
    rw [List.mem_map] at ha
    obtain ⟨x, hx, hxa⟩ := ha
    have hne := h x hx
    simp only [beq_iff_eq] at hne
    exact hne (hxa.trans hb)

theorem collectStep_ranks {acc : List PlayerScore} (r : RankedRecord)
    (he : ∀ pl ∈ acc, pl.ranks = []) :
    ∀ pl ∈ collectStep acc r, pl.ranks = [] := by
  unfold collectStep
  by_cases h : acc.any (fun p => p.player_id == r.player_id) = true
  · rw [if_pos h]
    exact he
  · rw [if_neg h]
    intro pl hpl
    rcases List.mem_append.1 hpl with hpl' | hpl'
    · exact he pl hpl'
    · rw [List.mem_singleton] at hpl'
      rw [hpl']
      rfl

theorem collectInner_nodup_ranks :
    ∀ (recs : List RankedRecord) (acc : List PlayerScore),
      (acc.map PlayerScore.player_id).Nodup → (∀ pl ∈ acc, pl.ranks = []) →
      ((recs.foldl collectStep acc).map PlayerScore.player_id).Nodup
        ∧ ∀ pl ∈ recs.foldl collectStep acc, pl.ranks = [] := by
  intro recs
  induction recs with
  | nil => intro acc hnd he; exact ⟨hnd, he⟩
  | cons r rs ih =>
    intro acc hnd he
    rw [List.foldl_cons]
    exact ih (collectStep acc r) (collectStep_nodup r hnd) (collectStep_ranks r he)

theorem collectPlayers_nodup_ranks :
    ∀ mrs : List (List RankedRecord),
      ((collectPlayers mrs).map PlayerScore.player_id).Nodup
        ∧ ∀ pl ∈ collectPlayers mrs, pl.ranks = [] := by
  have haux : ∀ (mrs : List (List RankedRecord)) (acc : List PlayerScore),
      (acc.map PlayerScore.player_id).Nodup → (∀ pl ∈ acc, pl.ranks = []) →
      ((mrs.foldl (fun acc recs => recs.foldl collectStep acc) acc).map
          PlayerScore.player_id).Nodup
        ∧ ∀ pl ∈ mrs.foldl (fun acc recs => recs.foldl collectStep acc) acc,
            pl.ranks = [] := by
    intro mrs
    induction mrs with
    | nil => intro acc hnd he; exact ⟨hnd, he⟩
    | cons recs rest ih =>
      intro acc hnd he
      rw [List.foldl_cons]
      obtain ⟨hnd', he'⟩ := collectInner_nodup_ranks recs acc hnd he
      exact ih _ hnd' he'
  intro mrs
  exact haux mrs [] (by simp) (by simp)

theorem expectedEntryAux_idx (recs : List RankedRecord) (pid idx : Nat) :
    (expectedEntryAux recs pid idx).map_idx = idx := by
  unfold expectedEntryAux
  cases recs.find? (fun r => r.player_id == pid) with
  | none => rfl
  | some r => rfl

theorem expectedRanks_le_mapIdx (pid : Nat) :
    ∀ (mrs : List (List RankedRecord)) (idx : Nat),
      ∀ e ∈ expectedRanks pid idx mrs, idx ≤ e.map_idx := by
  intro mrs
  induction mrs with
  | nil => intro idx e he; cases he
  | cons recs rest ih =>
    intro idx e he
    rcases List.mem_cons.1 he with rfl | he'
    · rw [expectedEntryAux_idx]
    · have := ih (idx + 1) e he'
      omega

theorem expectedRanks_filter (pid : Nat) :
    ∀ (mrs : List (List RankedRecord)) (idx m : Nat), idx ≤ m → m < idx + mrs.length →
      (expectedRanks pid idx mrs).filter (fun e => e.map_idx == m)
        = [expectedEntryAux (mrs.getD (m - idx) []) pid m] := by
  intro mrs
  induction mrs with
  | nil => intro idx m h1 h2; simp at h2; omega
  | cons recs rest ih =>
    intro idx m h1 h2
    unfold expectedRanks
    by_cases hm : m = idx
    · subst hm
      rw [List.filter_cons_of_pos (by simp [expectedEntryAux_idx])]
      have hrest : (expectedRanks pid (m + 1) rest).filter (fun e => e.map_idx == m)
          = [] := by
        rw [List.filter_eq_nil_iff]
        intro e he
        have := expectedRanks_le_mapIdx pid rest (m + 1) e he
        simp only [beq_iff_eq]
        omega
      rw [hrest]
      simp
    · have hlt : idx < m := by omega
      rw [List.filter_cons_of_neg (by simp [expectedEntryAux_idx]; omega)]
      have hsub : m - idx = (m - (idx + 1)) + 1 := by omega
      rw [hsub, List.getD_cons_succ]
      exact ih (idx + 1) m (by omega) (by simp at h2 ⊢; omega)

/-- Claim C3: in the rank-vector stage of the mappack pipeline, every
player encountered on any map of the mappack holds, for every map of the
mappack on which they have no record, exactly one synthetic entry in
their rank vector for that map, with rank `last_rank + 1` where
`last_rank` is the maximum resolved rank among that map's records (0 when
the map has no records).  The hypothesis that each map's record rows name
pairwise distinct players is the database invariant of the
`global_records` source (one current-best row per player per map). -/
theorem mappack_penalty_rank (mrs : List (List RankedRecord))
    (hrnd : ∀ recs ∈ mrs, (recs.map RankedRecord.player_id).Nodup)
    (pl : PlayerScore) (hpl : pl ∈ (buildRanks mrs).1)
    (m : Nat) (hm : m < mrs.length)
    (hno : ∀ r ∈ mrs.getD m [], r.player_id ≠ pl.player_id) :
    pl.ranks.filter (fun e => e.map_idx == m)
      = [{ rank := lastRankOf (mrs.getD m []) + 1, map_idx := m }] := by
  obtain ⟨hnd0, hranks0⟩ := collectPlayers_nodup_ranks mrs
  have hspec := buildRanksAux_spec mrs 0 (collectPlayers mrs) hnd0 hrnd
    (fun pl0 h0 => by rw [hranks0 pl0 h0]; rfl)
  obtain ⟨pl0, hpl0, hpid, hranks⟩ := forall2_mem_right hspec.2 pl hpl
  rw [hranks0 pl0 hpl0, List.nil_append] at hranks
  rw [hranks]
  have hfil := expectedRanks_filter pl0.player_id mrs 0 m (by omega) (by omega)
  rw [Nat.sub_zero] at hfil
  rw [hfil]
  unfold expectedEntryAux
  rw [List.find?_eq_none.mpr (fun r hr => by simpa [← hpid] using hno r hr)]

/-- Witness for claim C3: in the 2-map scenario, player B (id 2) has no
record on map 1 and their rank vector holds exactly the penalty entry
with rank `lastRank + 1 = 3` for that map. -/
theorem mappack_penalty_rank_witness :
    ((∀ recs ∈ mappackScenario, (recs.map RankedRecord.player_id).Nodup)
      ∧ penaltyWitnessPlayer ∈ (buildRanks mappackScenario).1
      ∧ (∀ r ∈ mappackScenario.getD 1 [], r.player_id ≠ penaltyWitnessPlayer.player_id))
    ∧ penaltyWitnessPlayer.ranks.filter (fun e => e.map_idx == 1)
        = [{ rank := lastRankOf (mappackScenario.getD 1 []) + 1, map_idx := 1 }] :=
  ⟨⟨by decide, by decide, by decide⟩,
    mappack_penalty_rank mappackScenario (by decide) penaltyWitnessPlayer
      (by decide) 1 (by decide) (by decide)⟩

/-! ### Mappack snapshot TTL policy (claim C8) -/

theorem rset_frame {st : RStore} {k : RKey} {ttl : Option Nat} {q : RKey}
    (h : q ≠ k) : rset st k ttl q = st q := by
  unfold rset
  rw [if_neg h]

theorem rset_self {st : RStore} {k : RKey} {ttl : Option Nat} :
    rset st k ttl k = KeyState.present ttl := by
  unfold rset
  rw [if_pos rfl]

theorem rzadd_frame {st : RStore} {k q : RKey} (h : q ≠ k) :
    rzadd st k q = st q := by
  unfold rzadd
  rw [if_neg h]

theorem rzadd_self {st : RStore} {k : RKey} :
    rzadd st k k = (match st k with
      | KeyState.absent => KeyState.present none
      | KeyState.present t => KeyState.present t) := by
  unfold rzadd
  rw [if_pos rfl]

theorem rexpire_frame {st : RStore} {k : RKey} {ttl : Nat} {q : RKey}
    (h : q ≠ k) : rexpire st k ttl q = st q := by
  unfold rexpire
  rw [if_neg h]

theorem rexpire_self {st : RStore} {k : RKey} {ttl : Nat} :
    rexpire st k ttl k = (match st k with
      | KeyState.absent => KeyState.absent
      | KeyState.present _ => KeyState.present (some ttl)) := by
  unfold rexpire
  rw [if_pos rfl]

theorem rpersist_frame {st : RStore} {k q : RKey} (h : q ≠ k) :
    rpersist st k q = st q := by
  unfold rpersist
  rw [if_neg h]

theorem rpersist_self {st : RStore} {k : RKey} :
    rpersist st k k = (match st k with
      | KeyState.absent => KeyState.absent
      | KeyState.present _ => KeyState.present none) := by
  unfold rpersist
  rw [if_pos rfl]

theorem foldl_preserve {σ α : Type} {P : σ → Prop} (f : σ → α → σ) :
    ∀ (l : List α) (st : σ), (∀ st a, a ∈ l → P st → P (f st a)) → P st →
      P (l.foldl f st) := by
  intro l
  induction l with
  | nil => intro st _ h; exact h
  | cons x xs ih =>
    intro st hstep h
    rw [List.foldl_cons]
    exact ih _ (fun st a ha => hstep st a (List.mem_cons_of_mem _ ha))
      (hstep st x (List.mem_cons_self _ _) h)

theorem foldl_establish {σ α : Type} {P : σ → Prop} (f : σ → α → σ) :
    ∀ (l : List α) (a : α), a ∈ l → (∀ st, P (f st a)) →
      (∀ st b, b ∈ l → P st → P (f st b)) → ∀ st, P (l.foldl f st) := by
  intro l
  induction l with
  | nil => intro a ha; cases ha
  | cons x xs ih =>
    intro a ha hest hpres st
    rw [List.foldl_cons]
    rcases List.mem_cons.1 ha with rfl | ha'
    · exact foldl_preserve f xs (f st a)
        (fun st b hb => hpres st b (List.mem_cons_of_mem _ hb)) (hest st)
    · exact ih a ha' hest (fun st b hb => hpres st b (List.mem_cons_of_mem _ hb)) _

theorem foldl_frame {σ α β : Type} (f : σ → α → σ) (g : σ → β) :
    ∀ (l : List α) (st : σ), (∀ st a, a ∈ l → g (f st a) = g st) →
      g (l.foldl f st) = g st := by
  intro l
  induction l with
  | nil => intro st _; rfl
  | cons x xs ih =>
    intro st hframe
    rw [List.foldl_cons]
    rw [ih _ (fun st a ha => hframe st a (List.mem_cons_of_mem _ ha))]
    exact hframe st x (List.mem_cons_self _ _)

theorem zaddRanks_frame {pid : Nat} {ranks : List Rank} {st : RStore} {q : RKey}
    (h : q ≠ RKey.playerRanks pid) : zaddRanks pid ranks st q = st q := by
  unfold zaddRanks
  exact foldl_frame _ (fun s => s q) ranks st (fun st a _ => rzadd_frame h)

theorem zaddRanks_self {pid : Nat} :
    ∀ (ranks : List Rank) (st : RStore),
      zaddRanks pid ranks st (RKey.playerRanks pid)
        = (match st (RKey.playerRanks pid), ranks with
          | KeyState.absent, [] => KeyState.absent
          | KeyState.absent, _ :: _ => KeyState.present none
          | KeyState.present t, _ => KeyState.present t) := by
  intro ranks
  induction ranks with
  | nil =>
    intro st
    show st (RKey.playerRanks pid) = _
    cases h : st (RKey.playerRanks pid) with
    | absent => rfl
    | present t => rfl
  | cons r rs ih =>
    intro st
    unfold zaddRanks
    rw [List.foldl_cons]
    have hstep : ∀ st' : RStore,
        (rs.foldl (fun st _ => rzadd st (RKey.playerRanks pid)) st')
          = zaddRanks pid rs st' := fun _ => rfl
    rw [hstep, ih]
    rw [rzadd_self]
    cases h : st (RKey.playerRanks pid) with
    | absent => cases rs <;> rfl
    | present t => rfl

theorem saveMapStep_frame {ttl : Option Nat} {st : RStore} {m : MappackMapM}
    {q : RKey} (h : q ≠ RKey.mapLastRank m.map_id) :
    saveMapStep ttl st m q = st q := by
  cases ttl with
  | some ex =>
    show rset st (RKey.mapLastRank m.map_id) (some ex) q = st q
    exact rset_frame h
  | none =>
    show rpersist (rset st (RKey.mapLastRank m.map_id) none)
      (RKey.mapLastRank m.map_id) q = st q
    rw [rpersist_frame h, rset_frame h]

theorem saveMapStep_self {ttl : Option Nat} {st : RStore} {m : MappackMapM} :
    saveMapStep ttl st m (RKey.mapLastRank m.map_id) = KeyState.present ttl := by
  cases ttl with
  | some ex =>
    show rset st (RKey.mapLastRank m.map_id) (some ex) (RKey.mapLastRank m.map_id)
      = KeyState.present (some ex)
    exact rset_self
  | none =>
    show rpersist (rset st (RKey.mapLastRank m.map_id) none)
      (RKey.mapLastRank m.map_id) (RKey.mapLastRank m.map_id) = KeyState.present none
    rw [rpersist_self, rset_self]

theorem savePlayerStep_frame {ttl : Option Nat} {st : RStore} {p : PlayerScore}
    {q : RKey}
    (h1 : q ≠ RKey.lb) (h2 : q ≠ RKey.playerRankAvg p.player_id)
    (h3 : q ≠ RKey.playerMapFinished p.player_id)
    (h4 : q ≠ RKey.playerWorstRank p.player_id)
    (h5 : q ≠ RKey.playerRanks p.player_id) :
    savePlayerStep ttl st p q = st q := by
  unfold savePlayerStep
  cases ttl with
  | some ex =>
    dsimp only
    rw [zaddRanks_frame h5, rexpire_frame h5, rset_frame h4, rset_frame h3,
      rset_frame h2, rzadd_frame h1]
  | none =>
    dsimp only
    rw [zaddRanks_frame h5, rpersist_frame h4, rpersist_frame h3, rpersist_frame h2,
      rpersist_frame h5, rset_frame h4, rset_frame h3, rset_frame h2, rzadd_frame h1]

theorem savePlayerStep_lb {ttl : Option Nat} {st : RStore} {p : PlayerScore} :
    savePlayerStep ttl st p RKey.lb = (match st RKey.lb with
      | KeyState.absent => KeyState.present none
      | KeyState.present t => KeyState.present t) := by
  unfold savePlayerStep
  cases ttl with
  | some ex =>
    dsimp only
    rw [zaddRanks_frame (fun h => RKey.noConfusion h),
      rexpire_frame (fun h => RKey.noConfusion h),
      rset_frame (fun h => RKey.noConfusion h),
      rset_frame (fun h => RKey.noConfusion h),
      rset_frame (fun h => RKey.noConfusion h), rzadd_self]
  | none =>
    dsimp only
    rw [zaddRanks_frame (fun h => RKey.noConfusion h),
      rpersist_frame (fun h => RKey.noConfusion h),
      rpersist_frame (fun h => RKey.noConfusion h),
      rpersist_frame (fun h => RKey.noConfusion h),
      rpersist_frame (fun h => RKey.noConfusion h),
      rset_frame (fun h => RKey.noConfusion h),
      rset_frame (fun h => RKey.noConfusion h),
      rset_frame (fun h => RKey.noConfusion h), rzadd_self]

theorem savePlayerStep_avg {ttl : Option Nat} {st : RStore} {p : PlayerScore} :
    savePlayerStep ttl st p (RKey.playerRankAvg p.player_id)
      = KeyState.present ttl := by
  unfold savePlayerStep
  cases ttl with
  | some ex =>
    dsimp only
    rw [zaddRanks_frame (fun h => RKey.noConfusion h),
      rexpire_frame (fun h => RKey.noConfusion h),
      rset_frame (fun h => RKey.noConfusion h),
      rset_frame (fun h => RKey.noConfusion h), rset_self]
  | none =>
    dsimp only
    rw [zaddRanks_frame (fun h => RKey.noConfusion h),
      rpersist_frame (fun h => RKey.noConfusion h),
      rpersist_frame (fun h => RKey.noConfusion h), rpersist_self,
      rpersist_frame (fun h => RKey.noConfusion h),
      rset_frame (fun h => RKey.noConfusion h),
      rset_frame (fun h => RKey.noConfusion h), rset_self]

theorem savePlayerStep_mf {ttl : Option Nat} {st : RStore} {p : PlayerScore} :
    savePlayerStep ttl st p (RKey.playerMapFinished p.player_id)
      = KeyState.present ttl := by
  unfold savePlayerStep
  cases ttl with
  | some ex =>
    dsimp only
    rw [zaddRanks_frame (fun h => RKey.noConfusion h),
      rexpire_frame (fun h => RKey.noConfusion h),
      rset_frame (fun h => RKey.noConfusion h), rset_self]
  | none =>
    dsimp only
    rw [zaddRanks_frame (fun h => RKey.noConfusion h),
      rpersist_frame (fun h => RKey.noConfusion h), rpersist_self,
      rpersist_frame (fun h => RKey.noConfusion h),
      rpersist_frame (fun h => RKey.noConfusion h),
      rset_frame (fun h => RKey.noConfusion h), rset_self]

theorem savePlayerStep_worst {ttl : Option Nat} {st : RStore} {p : PlayerScore} :
    savePlayerStep ttl st p (RKey.playerWorstRank p.player_id)
      = KeyState.present ttl := by
  unfold savePlayerStep
  cases ttl with
  | some ex =>
    dsimp only
    rw [zaddRanks_frame (fun h => RKey.noConfusion h),
      rexpire_frame (fun h => RKey.noConfusion h), rset_self]
  | none =>
    dsimp only
    rw [zaddRanks_frame (fun h => RKey.noConfusion h), rpersist_self,
      rpersist_frame (fun h => RKey.noConfusion h),
      rpersist_frame (fun h => RKey.noConfusion h),
      rpersist_frame (fun h => RKey.noConfusion h), rset_self]

theorem savePlayerStep_ranks {ttl : Option Nat} {st : RStore} {p : PlayerScore} :
    savePlayerStep ttl st p (RKey.playerRanks p.player_id)
      = (match st (RKey.playerRanks p.player_id), ttl, p.ranks with
        | KeyState.absent, _, [] => KeyState.absent
        | KeyState.absent, _, _ :: _ => KeyState.present none
        | KeyState.present _, some ex, _ => KeyState.present (some ex)
        | KeyState.present _, none, _ => KeyState.present none) := by
  unfold savePlayerStep
  cases ttl with
  | some ex =>
    dsimp only
    rw [zaddRanks_self, rexpire_self,
      rset_frame (fun h => RKey.noConfusion h),
      rset_frame (fun h => RKey.noConfusion h),
      rset_frame (fun h => RKey.noConfusion h),
      rzadd_frame (fun h => RKey.noConfusion h)]
    cases h : st (RKey.playerRanks p.player_id) with
    | absent => cases p.ranks <;> rfl
    | present t => cases p.ranks <;> rfl
  | none =>
    dsimp only
    rw [zaddRanks_self,
      rpersist_frame (fun h => RKey.noConfusion h),
      rpersist_frame (fun h => RKey.noConfusion h),
      rpersist_frame (fun h => RKey.noConfusion h), rpersist_self,
      rset_frame (fun h => RKey.noConfusion h),
      rset_frame (fun h => RKey.noConfusion h),
      rset_frame (fun h => RKey.noConfusion h),
      rzadd_frame (fun h => RKey.noConfusion h)]
    cases h : st (RKey.playerRanks p.player_id) with
    | absent => cases p.ranks <;> rfl
    | present t => cases p.ranks <;> rfl

theorem saveStage1_frame {ttl : Option Nat} {st : RStore} {q : RKey}
    (h1 : q ≠ RKey.mappack) (h2 : q ≠ RKey.lb) :
    saveStage1 ttl st q = st q := by
  cases ttl with
  | some ex =>
    show rexpire (rexpire st RKey.mappack ex) RKey.lb ex q = st q
    rw [rexpire_frame h2, rexpire_frame h1]
  | none =>
    show rpersist (rpersist st RKey.mappack) RKey.lb q = st q
    rw [rpersist_frame h2, rpersist_frame h1]

theorem saveStage1_lb_present {ttl : Option Nat} {st : RStore} {t0 : Option Nat}
    (h : st RKey.lb = KeyState.present t0) :
    saveStage1 ttl st RKey.lb = KeyState.present ttl := by
  cases ttl with
  | some ex =>
    show rexpire (rexpire st RKey.mappack ex) RKey.lb ex RKey.lb = _
    rw [rexpire_self, rexpire_frame (fun hc => RKey.noConfusion hc), h]
  | none =>
    show rpersist (rpersist st RKey.mappack) RKey.lb RKey.lb = _
    rw [rpersist_self, rpersist_frame (fun hc => RKey.noConfusion hc), h]

theorem saveStage1_lb_absent {ttl : Option Nat} {st : RStore}
    (h : st RKey.lb = KeyState.absent) :
    saveStage1 ttl st RKey.lb = KeyState.absent := by
  cases ttl with
  | some ex =>
    show rexpire (rexpire st RKey.mappack ex) RKey.lb ex RKey.lb = _
    rw [rexpire_self, rexpire_frame (fun hc => RKey.noConfusion hc), h]
  | none =>
    show rpersist (rpersist st RKey.mappack) RKey.lb RKey.lb = _
    rw [rpersist_self, rpersist_frame (fun hc => RKey.noConfusion hc), h]

theorem saveNbMap_frame {ttl : Option Nat} {st : RStore} {q : RKey}
    (h : q ≠ RKey.nbMap) : saveNbMap ttl st q = st q := by
  cases ttl with
  | some ex =>
    show rset st RKey.nbMap (some ex) q = st q
    exact rset_frame h
  | none =>
    show rpersist (rset st RKey.nbMap none) RKey.nbMap q = st q
    rw [rpersist_frame h, rset_frame h]

theorem saveNbMap_self {ttl : Option Nat} {st : RStore} :
    saveNbMap ttl st RKey.nbMap = KeyState.present ttl := by
  cases ttl with
  | some ex =>
    show rset st RKey.nbMap (some ex) RKey.nbMap = _
    exact rset_self
  | none =>
    show rpersist (rset st RKey.nbMap none) RKey.nbMap RKey.nbMap = _
    rw [rpersist_self, rset_self]

theorem saveMaps_frame {ttl : Option Nat} {maps : List MappackMapM} {st : RStore}
    {q : RKey} (h : ∀ mm ∈ maps, q ≠ RKey.mapLastRank mm.map_id) :
    saveMaps ttl maps st q = st q := by
  unfold saveMaps
  exact foldl_frame _ (fun s => s q) maps st
    (fun st mm hmm => saveMapStep_frame (h mm hmm))

theorem saveMaps_self {ttl : Option Nat} {maps : List MappackMapM} {st : RStore}
    {m : MappackMapM} (hm : m ∈ maps) :
    saveMaps ttl maps st (RKey.mapLastRank m.map_id) = KeyState.present ttl := by
  unfold saveMaps
  refine foldl_establish (P := fun s : RStore => s (RKey.mapLastRank m.map_id)
      = KeyState.present ttl) _ maps m hm (fun st => saveMapStep_self) ?_ st
  intro st b _ hP
  by_cases hb : m.map_id = b.map_id
  · rw [hb]
    exact saveMapStep_self
  · rw [saveMapStep_frame (fun hc => hb (by injection hc))]
    exact hP

theorem savePlayers_frame {ttl : Option Nat} {scores : List PlayerScore}
    {st : RStore} {q : RKey} (hlb : q ≠ RKey.lb)
    (h : ∀ b ∈ scores, q ≠ RKey.playerRankAvg b.player_id
      ∧ q ≠ RKey.playerMapFinished b.player_id
      ∧ q ≠ RKey.playerWorstRank b.player_id
      ∧ q ≠ RKey.playerRanks b.player_id) :
    savePlayers ttl scores st q = st q := by
  unfold savePlayers
  refine foldl_frame _ (fun s => s q) scores st ?_
  intro st b hb
  obtain ⟨h2, h3, h4, h5⟩ := h b hb
  exact savePlayerStep_frame hlb h2 h3 h4 h5

theorem savePlayers_avg {ttl : Option Nat} {scores : List PlayerScore}
    {st : RStore} {p : PlayerScore} (hp : p ∈ scores) :
    savePlayers ttl scores st (RKey.playerRankAvg p.player_id)
      = KeyState.present ttl := by
  unfold savePlayers
  refine foldl_establish (P := fun s : RStore => s (RKey.playerRankAvg p.player_id)
      = KeyState.present ttl) _ scores p hp (fun st => savePlayerStep_avg) ?_ st
  intro st b _ hP
  by_cases hb : p.player_id = b.player_id
  · rw [hb]
    exact savePlayerStep_avg
  · rw [savePlayerStep_frame (fun hc => RKey.noConfusion hc)
      (fun hc => hb (by injection hc)) (fun hc => RKey.noConfusion hc)
      (fun hc => RKey.noConfusion hc) (fun hc => RKey.noConfusion hc)]
    exact hP

theorem savePlayers_mf {ttl : Option Nat} {scores : List PlayerScore}
    {st : RStore} {p : PlayerScore} (hp : p ∈ scores) :
    savePlayers ttl scores st (RKey.playerMapFinished p.player_id)
      = KeyState.present ttl := by
  unfold savePlayers
  refine foldl_establish (P := fun s : RStore => s (RKey.playerMapFinished p.player_id)
      = KeyState.present ttl) _ scores p hp (fun st => savePlayerStep_mf) ?_ st
  intro st b _ hP
  by_cases hb : p.player_id = b.player_id
  · rw [hb]
    exact savePlayerStep_mf
  · rw [savePlayerStep_frame (fun hc => RKey.noConfusion hc)
      (fun hc => RKey.noConfusion hc) (fun hc => hb (by injection hc))
      (fun hc => RKey.noConfusion hc) (fun hc => RKey.noConfusion hc)]
    exact hP

theorem savePlayers_worst {ttl : Option Nat} {scores : List PlayerScore}
    {st : RStore} {p : PlayerScore} (hp : p ∈ scores) :
    savePlayers ttl scores st (RKey.playerWorstRank p.player_id)
      = KeyState.present ttl := by
  unfold savePlayers
  refine foldl_establish (P := fun s : RStore => s (RKey.playerWorstRank p.player_id)
      = KeyState.present ttl) _ scores p hp (fun st => savePlayerStep_worst) ?_ st
  intro st b _ hP
  by_cases hb : p.player_id = b.player_id
  · rw [hb]
    exact savePlayerStep_worst
  · rw [savePlayerStep_frame (fun hc => RKey.noConfusion hc)
      (fun hc => RKey.noConfusion hc) (fun hc => RKey.noConfusion hc)
      (fun hc => hb (by injection hc)) (fun hc => RKey.noConfusion hc)]
    exact hP

theorem savePlayers_lb_present {ttl : Option Nat} {scores : List PlayerScore}
    {st : RStore} {t0 : Option Nat} (h : st RKey.lb = KeyState.present t0) :
    savePlayers ttl scores st RKey.lb = KeyState.present t0 := by
  unfold savePlayers
  refine foldl_preserve (P := fun s : RStore => s RKey.lb = KeyState.present t0) _ scores st
    ?_ h
  intro st b _ hP
  show savePlayerStep ttl st b RKey.lb = KeyState.present t0
  rw [savePlayerStep_lb, hP]

theorem savePlayers_lb_fresh {ttl : Option Nat} {scores : List PlayerScore}
    {st : RStore} (h : st RKey.lb = KeyState.absent) (hs : scores ≠ []) :
    savePlayers ttl scores st RKey.lb = KeyState.present none := by
  cases scores with
  | nil => exact absurd rfl hs
  | cons p ps =>
    unfold savePlayers
    rw [List.foldl_cons]
    refine foldl_preserve (P := fun s : RStore => s RKey.lb = KeyState.present none) _ ps _
      ?_ ?_
    · intro st b _ hP
      show savePlayerStep ttl st b RKey.lb = KeyState.present none
      rw [savePlayerStep_lb, hP]
    · show savePlayerStep ttl st p RKey.lb = KeyState.present none
      rw [savePlayerStep_lb, h]

theorem savePlayers_ranks {ttl : Option Nat} {scores : List PlayerScore}
    {st : RStore} {p : PlayerScore}
    (hnd : (scores.map PlayerScore.player_id).Nodup) (hp : p ∈ scores) :
    savePlayers ttl scores st (RKey.playerRanks p.player_id)
      = (match st (RKey.playerRanks p.player_id), ttl, p.ranks with
        | KeyState.absent, _, [] => KeyState.absent
        | KeyState.absent, _, _ :: _ => KeyState.present none
        | KeyState.present _, some ex, _ => KeyState.present (some ex)
        | KeyState.present _, none, _ => KeyState.present none) := by
  obtain ⟨l1, l2, hsplit⟩ := List.append_of_mem hp
  subst hsplit
  rw [List.map_append, List.map_cons] at hnd
  rw [List.nodup_append] at hnd
  obtain ⟨hnd1, hnd2, hdisj⟩ := hnd
  have hl1 : ∀ b ∈ l1, b.player_id ≠ p.player_id := by
    intro b hb hc
    exact hdisj (List.mem_map_of_mem _ hb)
      (by rw [hc]; exact List.mem_cons_self _ _)
  have hl2 : ∀ b ∈ l2, b.player_id ≠ p.player_id := by
    rw [List.nodup_cons] at hnd2
    intro b hb hc
    exact hnd2.1 (by rw [← hc]; exact List.mem_map_of_mem _ hb)
  unfold savePlayers
  rw [List.foldl_append, List.foldl_cons]
  have hframe2 : List.foldl (savePlayerStep ttl)
      (savePlayerStep ttl (List.foldl (savePlayerStep ttl) st l1) p) l2
        (RKey.playerRanks p.player_id)
      = savePlayerStep ttl (List.foldl (savePlayerStep ttl) st l1) p
        (RKey.playerRanks p.player_id) := by
    refine foldl_frame _ (fun s : RStore => s (RKey.playerRanks p.player_id)) l2 _ ?_
    intro st b hb
    exact savePlayerStep_frame (fun hc => RKey.noConfusion hc)
      (fun hc => RKey.noConfusion hc) (fun hc => RKey.noConfusion hc)
      (fun hc => RKey.noConfusion hc)
      (fun hc => (hl2 b hb) (by injection hc with hinj; exact hinj.symm))
  have hframe1 : List.foldl (savePlayerStep ttl) st l1 (RKey.playerRanks p.player_id)
      = st (RKey.playerRanks p.player_id) := by
    refine foldl_frame _ (fun s : RStore => s (RKey.playerRanks p.player_id)) l1 st ?_
    intro st b hb
    exact savePlayerStep_frame (fun hc => RKey.noConfusion hc)
      (fun hc => RKey.noConfusion hc) (fun hc => RKey.noConfusion hc)
      (fun hc => RKey.noConfusion hc)
      (fun hc => (hl1 b hb) (by injection hc with hinj; exact hinj.symm))
  rw [hframe2, savePlayerStep_ranks, hframe1]

theorem saveTime_frame {ttl : Option Nat} {st : RStore} {q : RKey}
    (h : q ≠ RKey.timeKey) : saveTime ttl st q = st q := by
  cases ttl with
  | some ex =>
    show rexpire (rset st RKey.timeKey none) RKey.timeKey ex q = st q
    rw [rexpire_frame h, rset_frame h]
  | none =>
    show rpersist (rset st RKey.timeKey none) RKey.timeKey q = st q
    rw [rpersist_frame h, rset_frame h]

theorem saveTime_self {ttl : Option Nat} {st : RStore} :
    saveTime ttl st RKey.timeKey = KeyState.present ttl := by
  cases ttl with
  | some ex =>
    show rexpire (rset st RKey.timeKey none) RKey.timeKey ex RKey.timeKey = _
    rw [rexpire_self, rset_self]
  | none =>
    show rpersist (rset st RKey.timeKey none) RKey.timeKey RKey.timeKey = _
    rw [rpersist_self, rset_self]

theorem saveStore_nbMap (ttl : Option Nat) (sc : MappackScoresM) (st : RStore) :
    saveStore ttl sc st RKey.nbMap = KeyState.present ttl := by
  unfold saveStore
  rw [saveTime_frame (fun hc => RKey.noConfusion hc),
    savePlayers_frame (fun hc => RKey.noConfusion hc)
      (fun b _ => ⟨fun hc => RKey.noConfusion hc, fun hc => RKey.noConfusion hc,
        fun hc => RKey.noConfusion hc, fun hc => RKey.noConfusion hc⟩),
    saveMaps_frame (fun mm _ hc => RKey.noConfusion hc),
    saveNbMap_self]

theorem saveStore_time (ttl : Option Nat) (sc : MappackScoresM) (st : RStore) :
    saveStore ttl sc st RKey.timeKey = KeyState.present ttl := by
  unfold saveStore
  rw [saveTime_self]

theorem saveStore_mapLastRank {ttl : Option Nat} {sc : MappackScoresM}
    {st : RStore} {m : MappackMapM} (hm : m ∈ sc.maps) :
    saveStore ttl sc st (RKey.mapLastRank m.map_id) = KeyState.present ttl := by
  unfold saveStore
  rw [saveTime_frame (fun hc => RKey.noConfusion hc),
    savePlayers_frame (fun hc => RKey.noConfusion hc)
      (fun b _ => ⟨fun hc => RKey.noConfusion hc, fun hc => RKey.noConfusion hc,
        fun hc => RKey.noConfusion hc, fun hc => RKey.noConfusion hc⟩),
    saveMaps_self hm]

theorem saveStore_avg {ttl : Option Nat} {sc : MappackScoresM} {st : RStore}
    {p : PlayerScore} (hp : p ∈ sc.scores) :
    saveStore ttl sc st (RKey.playerRankAvg p.player_id) = KeyState.present ttl := by
  unfold saveStore
  rw [saveTime_frame (fun hc => RKey.noConfusion hc), savePlayers_avg hp]

theorem saveStore_mf {ttl : Option Nat} {sc : MappackScoresM} {st : RStore}
    {p : PlayerScore} (hp : p ∈ sc.scores) :
    saveStore ttl sc st (RKey.playerMapFinished p.player_id)
      = KeyState.present ttl := by
  unfold saveStore
  rw [saveTime_frame (fun hc => RKey.noConfusion hc), savePlayers_mf hp]

theorem saveStore_worst {ttl : Option Nat} {sc : MappackScoresM} {st : RStore}
    {p : PlayerScore} (hp : p ∈ sc.scores) :
    saveStore ttl sc st (RKey.playerWorstRank p.player_id)
      = KeyState.present ttl := by
  unfold saveStore
  rw [saveTime_frame (fun hc => RKey.noConfusion hc), savePlayers_worst hp]

theorem saveStore_lb_present {ttl : Option Nat} {sc : MappackScoresM} {st : RStore}
    {t0 : Option Nat} (h : st RKey.lb = KeyState.present t0) :
    saveStore ttl sc st RKey.lb = KeyState.present ttl := by
  unfold saveStore
  rw [saveTime_frame (fun hc => RKey.noConfusion hc)]
  have hpre : saveMaps ttl sc.maps (saveNbMap ttl (saveStage1 ttl st)) RKey.lb
      = KeyState.present ttl := by
    rw [saveMaps_frame (fun mm _ hc => RKey.noConfusion hc),
      saveNbMap_frame (fun hc => RKey.noConfusion hc), saveStage1_lb_present h]
  rw [savePlayers_lb_present hpre]

theorem saveStore_lb_fresh {ttl : Option Nat} {sc : MappackScoresM} {st : RStore}
    (h : st RKey.lb = KeyState.absent) (hs : sc.scores ≠ []) :
    saveStore ttl sc st RKey.lb = KeyState.present none := by
  unfold saveStore
  rw [saveTime_frame (fun hc => RKey.noConfusion hc)]
  have hpre : saveMaps ttl sc.maps (saveNbMap ttl (saveStage1 ttl st)) RKey.lb
      = KeyState.absent := by
    rw [saveMaps_frame (fun mm _ hc => RKey.noConfusion hc),
      saveNbMap_frame (fun hc => RKey.noConfusion hc), saveStage1_lb_absent h]
  rw [savePlayers_lb_fresh hpre hs]

theorem saveStore_ranks {ttl : Option Nat} {sc : MappackScoresM} {st : RStore}
    {p : PlayerScore} (hnd : (sc.scores.map PlayerScore.player_id).Nodup)
    (hp : p ∈ sc.scores) :
    saveStore ttl sc st (RKey.playerRanks p.player_id)
      = (match st (RKey.playerRanks p.player_id), ttl, p.ranks with
        | KeyState.absent, _, [] => KeyState.absent
        | KeyState.absent, _, _ :: _ => KeyState.present none
        | KeyState.present _, some ex, _ => KeyState.present (some ex)
        | KeyState.present _, none, _ => KeyState.present none) := by
  unfold saveStore
  rw [saveTime_frame (fun hc => RKey.noConfusion hc), savePlayers_ranks hnd hp]
  have hpre : saveMaps ttl sc.maps (saveNbMap ttl (saveStage1 ttl st))
      (RKey.playerRanks p.player_id) = st (RKey.playerRanks p.player_id) := by
    rw [saveMaps_frame (fun mm _ hc => RKey.noConfusion hc),
      saveNbMap_frame (fun hc => RKey.noConfusion hc),
      saveStage1_frame (fun hc => RKey.noConfusion hc)
        (fun hc => RKey.noConfusion hc)]
  rw [hpre]

theorem mappackTtlFor_of_mem {no_ttl : List String} {id : String} {env_ttl : Nat}
    (h : id ∈ no_ttl) : mappackTtlFor no_ttl id env_ttl = none := by
  unfold mappackTtlFor
  rw [if_neg]
  intro hall
  rw [List.all_eq_true] at hall
  have hself := hall id h
  simp at hself

theorem mappackTtlFor_of_not_mem {no_ttl : List String} {id : String}
    {env_ttl : Nat} (h : id ∉ no_ttl) :
    mappackTtlFor no_ttl id env_ttl = some env_ttl := by
  unfold mappackTtlFor
  rw [if_pos]
  rw [List.all_eq_true]
  intro x hx
  simp only [bne_iff_ne, ne_eq]
  intro hc
  exact h (hc ▸ hx)

/-- Claim C8 as amended: for a `save` run with the TTL decided from the
no-TTL registry as in `update_mappack`, a permanent mappack (id in the
registry) has every written snapshot key left with no expiry.  For an
ephemeral mappack (id not in the registry), every SET-written key — the
map count, per-map last ranks, per-player rank average, finished count
and worst rank, and the timestamp — carries the configured TTL, refreshed
by this run; the two keys written via sorted-set insertion (the
leaderboard and the per-player ranks vectors) have their TTL refreshed
only when the key already existed before the run, and are created with
no expiry when it did not — so a first compute leaves them without any
expiry despite the configured TTL. -/
theorem save_ttl_policy (no_ttl : List String) (id : String) (env_ttl : Nat)
    (sc : MappackScoresM) (st : RStore)
    (hnd : (sc.scores.map PlayerScore.player_id).Nodup) :
    (id ∈ no_ttl →
      saveStore (mappackTtlFor no_ttl id env_ttl) sc st RKey.nbMap
          = KeyState.present none
      ∧ saveStore (mappackTtlFor no_ttl id env_ttl) sc st RKey.timeKey
          = KeyState.present none
      ∧ (∀ m ∈ sc.maps, saveStore (mappackTtlFor no_ttl id env_ttl) sc st
          (RKey.mapLastRank m.map_id) = KeyState.present none)
      ∧ (∀ p ∈ sc.scores,
          saveStore (mappackTtlFor no_ttl id env_ttl) sc st
            (RKey.playerRankAvg p.player_id) = KeyState.present none
          ∧ saveStore (mappackTtlFor no_ttl id env_ttl) sc st
            (RKey.playerMapFinished p.player_id) = KeyState.present none
          ∧ saveStore (mappackTtlFor no_ttl id env_ttl) sc st
            (RKey.playerWorstRank p.player_id) = KeyState.present none
          ∧ (∀ t0, st (RKey.playerRanks p.player_id) = KeyState.present t0 →
              saveStore (mappackTtlFor no_ttl id env_ttl) sc st
                (RKey.playerRanks p.player_id) = KeyState.present none)
          ∧ (st (RKey.playerRanks p.player_id) = KeyState.absent → p.ranks ≠ [] →
              saveStore (mappackTtlFor no_ttl id env_ttl) sc st
                (RKey.playerRanks p.player_id) = KeyState.present none))
      ∧ (∀ t0, st RKey.lb = KeyState.present t0 →
          saveStore (mappackTtlFor no_ttl id env_ttl) sc st RKey.lb
            = KeyState.present none)
      ∧ (st RKey.lb = KeyState.absent → sc.scores ≠ [] →
          saveStore (mappackTtlFor no_ttl id env_ttl) sc st RKey.lb
            = KeyState.present none))
    ∧ (id ∉ no_ttl →
      saveStore (mappackTtlFor no_ttl id env_ttl) sc st RKey.nbMap
          = KeyState.present (some env_ttl)
      ∧ saveStore (mappackTtlFor no_ttl id env_ttl) sc st RKey.timeKey
          = KeyState.present (some env_ttl)
      ∧ (∀ m ∈ sc.maps, saveStore (mappackTtlFor no_ttl id env_ttl) sc st
          (RKey.mapLastRank m.map_id) = KeyState.present (some env_ttl))
      ∧ (∀ p ∈ sc.scores,
          saveStore (mappackTtlFor no_ttl id env_ttl) sc st
            (RKey.playerRankAvg p.player_id) = KeyState.present (some env_ttl)
          ∧ saveStore (mappackTtlFor no_ttl id env_ttl) sc st
            (RKey.playerMapFinished p.player_id) = KeyState.present (some env_ttl)
          ∧ saveStore (mappackTtlFor no_ttl id env_ttl) sc st
            (RKey.playerWorstRank p.player_id) = KeyState.present (some env_ttl)
          ∧ (∀ t0, st (RKey.playerRanks p.player_id) = KeyState.present t0 →
              saveStore (mappackTtlFor no_ttl id env_ttl) sc st
                (RKey.playerRanks p.player_id) = KeyState.present (some env_ttl))
          ∧ (st (RKey.playerRanks p.player_id) = KeyState.absent → p.ranks ≠ [] →
              saveStore (mappackTtlFor no_ttl id env_ttl) sc st
                (RKey.playerRanks p.player_id) = KeyState.present none))
      ∧ (∀ t0, st RKey.lb = KeyState.present t0 →
          saveStore (mappackTtlFor no_ttl id env_ttl) sc st RKey.lb
            = KeyState.present (some env_ttl))
      ∧ (st RKey.lb = KeyState.absent → sc.scores ≠ [] →
          saveStore (mappackTtlFor no_ttl id env_ttl) sc st RKey.lb
            = KeyState.present none)) := by
  constructor
  · intro hmem
    rw [mappackTtlFor_of_mem hmem]
    refine ⟨saveStore_nbMap none sc st, saveStore_time none sc st,
      fun m hm => saveStore_mapLastRank hm, fun p hp => ?_,
      fun t0 h => saveStore_lb_present h, fun h hs => saveStore_lb_fresh h hs⟩
    refine ⟨saveStore_avg hp, saveStore_mf hp, saveStore_worst hp, ?_, ?_⟩
    · intro t0 h
      rw [saveStore_ranks hnd hp, h]
    · intro h hr
      rw [saveStore_ranks hnd hp, h]
      cases hranks : p.ranks with
      | nil => exact absurd hranks hr
      | cons a as => rfl
  · intro hnmem
    rw [mappackTtlFor_of_not_mem hnmem]
    refine ⟨saveStore_nbMap (some env_ttl) sc st, saveStore_time (some env_ttl) sc st,
      fun m hm => saveStore_mapLastRank hm, fun p hp => ?_,
      fun t0 h => saveStore_lb_present h, fun h hs => saveStore_lb_fresh h hs⟩
    refine ⟨saveStore_avg hp, saveStore_mf hp, saveStore_worst hp, ?_, ?_⟩
    · intro t0 h
      rw [saveStore_ranks hnd hp, h]
    · intro h hr
      rw [saveStore_ranks hnd hp, h]
      cases hranks : p.ranks with
      | nil => exact absurd hranks hr
      | cons a as => rfl

/-- Claim C8 as stated is refuted by the code: saving a one-map,
one-player snapshot for an ephemeral mappack (TTL 3600) into an empty
store leaves both the leaderboard key and the player's ranks key with no
expiry, because `save` runs EXPIRE on them before the ZADDs that create
them. -/
theorem save_ttl_fresh_refutes :
    saveStore (mappackTtlFor [] "a" 3600) mappackSnapshot1 emptyRStore RKey.lb
        = KeyState.present none
      ∧ saveStore (mappackTtlFor [] "a" 3600) mappackSnapshot1 emptyRStore
          (RKey.playerRanks 9) = KeyState.present none
      ∧ KeyState.present none ≠ KeyState.present (some 3600) := by
  refine ⟨by decide, by decide, by decide⟩

/-- Witness for claim C8: a recompute over a fully live store refreshes
every key of the snapshot to the configured TTL in the ephemeral case,
and a permanent registration persists them all. -/
theorem save_ttl_policy_witness :
    ((mappackSnapshot1.scores.map PlayerScore.player_id).Nodup
      ∧ ("a" : String) ∉ ([] : List String)
      ∧ ("a" : String) ∈ (["a"] : List String))
    ∧ saveStore (mappackTtlFor [] "a" 3600) mappackSnapshot1 liveRStore RKey.nbMap
        = KeyState.present (some 3600)
    ∧ saveStore (mappackTtlFor ["a"] "a" 3600) mappackSnapshot1 liveRStore RKey.nbMap
        = KeyState.present none :=
  ⟨⟨by decide, by decide, by decide⟩,
    ((save_ttl_policy [] "a" 3600 mappackSnapshot1 liveRStore (by decide)).2
      (by decide)).1,
    ((save_ttl_policy ["a"] "a" 3600 mappackSnapshot1 liveRStore (by decide)).1
      (by decide)).1⟩

end Records
